import Mathlib

/-!
Verification development for the multi-agent report-analysis system.

The Python sources are embedded shallowly: dictionaries become association
lists kept in insertion order, floats become exact rationals (the arithmetic
of the source never leaves small decimal fractions, so the idealisation is
harmless), and fallible code returns Option or Except.  Section A embeds the
consensus engine of src/agents/result_validator.py together with the weight
constants of src/config.py.  Section B embeds the resilient JSON decoder of
src/llm_clients/base_client.py.  Section C embeds the orchestrator fan-in and
the single-agent supervisor of src/agents/agent_orchestrator.py.
-/

namespace ReportAnalysis

/-! ### Section A: values and Python primitives -/

/-- Value an agent can report for one field: a Python int, a string, None, a
dict carrying a "value" and a "source" key (vobj), or a dict carrying only a
"value" key (vobjNS, source key absent).  Dicts without a "value" key do not
occur in the data produced by the clients and are outside the model. -/
inductive JVal where
  | vint (n : Int)
  | vstr (s : String)
  | vnull
  | vobj (value : JVal) (source : JVal)
  | vobjNS (value : JVal)
deriving DecidableEq

/-- Python repr() of a value.  String escaping inside repr is simplified to
plain quoting; the consensus code only ever calls str on scalars, so the dict
and nested branches are unreachable in the claims. -/
def pyRepr : JVal → String
  | .vint n => toString n
  | .vstr s => "'" ++ s ++ "'"
  | .vnull => "None"
  | .vobj v s => "\x7b'value': " ++ pyRepr v ++ ", 'source': " ++ pyRepr s ++ "\x7d"
  | .vobjNS v => "\x7b'value': " ++ pyRepr v ++ "\x7d"

/-- Python str() of a value. -/
def pyStr : JVal → String
  | .vstr s => s
  | v => pyRepr v

/-- Python truthiness of a value (0, "", None are falsy; a dict with a
"value" key is never empty, hence truthy). -/
def pyTruthy : JVal → Bool
  | .vint n => n != 0
  | .vstr s => s != ""
  | .vnull => false
  | .vobj _ _ => true
  | .vobjNS _ => true

/-- Unwrapping used all over the validator: a dict carrying a "value" key is
replaced by that value, anything else is kept. -/
def unwrapValue : JVal → JVal
  | .vobj v _ => v
  | .vobjNS v => v
  | v => v

/-- Distinct elements of a list in order of first appearance, mirroring the
insertion order of a Python dict or Counter. -/
def firstOccs (l : List String) : List String :=
  l.foldl (fun acc s => if s ∈ acc then acc else acc ++ [s]) []

/-- Counter(l).most_common(1)[0]: the value with the highest count, ties
broken in favour of the earliest inserted value; defaults to ("", 0) on the
empty list, which the source guards against. -/
def mostCommon (l : List String) : String × Nat :=
  (firstOccs l).foldl
    (fun best s => if l.count s > best.2 then (s, l.count s) else best)
    ("", 0)

/-- Floor of a rational written with integer euclidean division so that the
kernel evaluates it directly. -/
def ratFloor (q : ℚ) : ℤ := q.num / q.den

/-- Half-even integer rounding, the semantics of the Python round builtin. -/
def roundHalfEven (q : ℚ) : ℤ :=
  if q - ratFloor q < 1/2 then ratFloor q
  else if 1/2 < q - ratFloor q then ratFloor q + 1
  else if ratFloor q % 2 = 0 then ratFloor q else ratFloor q + 1

/-- Python round(q, ndigits) on exact rationals. -/
def pyRound (ndigits : ℕ) (q : ℚ) : ℚ :=
  (roundHalfEven (q * (10 ^ ndigits)) : ℚ) / (10 ^ ndigits)

/-! ### Configuration constants from src/config.py -/

def INTRA_MODEL_WEIGHT : ℚ := 4/10

def CROSS_MODEL_WEIGHT : ℚ := 6/10

def CONFIDENCE_THRESHOLD_HIGH : ℚ := 9/10

def CONFIDENCE_THRESHOLD_MEDIUM : ℚ := 7/10

/-! ### Section A: the consensus engine of result_validator.py -/

/-- Result dict of one agent as read by the validator; only the "data" key is
ever accessed, and it may be absent. -/
structure RawResult where
  data : Option (List (String × JVal))
deriving DecidableEq

/-- Python truthiness of result.get("data"). -/
def dataTruthy : Option (List (String × JVal)) → Bool
  | none => false
  | some d => d != []

/-- Values contributed for a field: results that carry a "data" key holding
the field, in result order. -/
def fieldValues (results : List RawResult) (field : String) : List JVal :=
  results.filterMap (fun r => match r.data with
    | some d => d.lookup field
    | none => none)

/-- ResultValidator.calculate_intra_model_consistency. -/
def calculate_intra_model_consistency (results : List RawResult) : ℚ :=
  if results.length < 2 then 1
  else
    match results with
    | [] => 1
    | r0 :: _ =>
      if ¬ dataTruthy r0.data then 0
      else
        let fields := (r0.data.getD []).map Prod.fst
        let field_scores := fields.filterMap (fun field =>
          let values := (fieldValues results field).map unwrapValue
          if values = [] then none
          else some (((mostCommon (values.map pyStr)).2 : ℚ) / (values.length : ℚ)))
        if field_scores = [] then 0
        else field_scores.sum / (field_scores.length : ℚ)

/-- Comparison string of a stored object: str of its "value" if it is a dict
with that key, str of the object otherwise. -/
def strOfObj (obj : JVal) : String :=
  pyStr (unwrapValue obj)

/-- Test used by the representative loop: the object is a dict whose "source"
entry is present and truthy. -/
def hasTruthySource : JVal → Bool
  | .vobj _ s => pyTruthy s
  | _ => false

/-- Selection loop of _get_consensus_result: the running best is overwritten
at every object whose comparison string matches, and the loop stops early at
the first matching object carrying a truthy source. -/
def pickBest (mc : String) : List JVal → Option JVal → Option JVal
  | [], best => best
  | o :: rest, best =>
    if strOfObj o = mc then
      if hasTruthySource o then some o
      else pickBest mc rest (some o)
    else pickBest mc rest best

/-- ResultValidator._get_consensus_result.  An entry holding none models a
field stored with the Python value None. -/
def _get_consensus_result (results : List RawResult) : List (String × Option JVal) :=
  match results with
  | [] => []
  | r0 :: _ =>
    if ¬ dataTruthy r0.data then []
    else
      ((r0.data.getD []).map Prod.fst).map (fun field =>
        let full_objects := fieldValues results field
        if full_objects = [] then (field, none)
        else
          let mc := (mostCommon (full_objects.map strOfObj)).1
          (field, pickBest mc full_objects none))

/-- Python consensus.get(field) followed by the value unwrapping of
compare_cross_model_results; a missing key and a stored None both come out
as vnull, the embedding of the Python None. -/
def consensusValue (consensus : List (String × Option JVal)) (field : String) : JVal :=
  match consensus.lookup field with
  | some (some obj) => unwrapValue obj
  | _ => .vnull

/-- Entry of the field_comparison dict. -/
structure FieldComp where
  openai : JVal
  anthropic : JVal
  google : JVal
  all_match : Bool
  agreement_count : Nat
  total_models : Nat
deriving DecidableEq

/-- Field entry computed by compare_cross_model_results. -/
def compareField (oc ac gc : List (String × Option JVal)) (field : String) : FieldComp :=
  let ov := consensusValue oc field
  let av := consensusValue ac field
  let gv := consensusValue gc field
  let values := [ov, av, gv].filter (fun v => v != JVal.vnull)
  match values with
  | [] => ⟨ov, av, gv, false, 0, 0⟩
  | v0 :: _ =>
      ⟨ov, av, gv, (firstOccs (values.map pyStr)).length == 1,
        (values.filter (fun v => pyStr v == pyStr v0)).length, values.length⟩

/-- Insertion sort used to model the Python sorted builtin on strings (any
correct sort agrees with it on deduplicated keys). -/
def insSorted (s : String) : List String → List String
  | [] => [s]
  | t :: rest => if s ≤ t then s :: t :: rest else t :: insSorted s rest

def sortStrings (l : List String) : List String := l.foldr insSorted []

/-- Field list of compare_cross_model_results: the field_order argument when
it is truthy, otherwise the sorted set union of the consensus keys. -/
def comparisonFields (oc ac gc : List (String × Option JVal))
    (field_order : List String) : List String :=
  if field_order ≠ [] then field_order
  else sortStrings (firstOccs (oc.map Prod.fst ++ ac.map Prod.fst ++ gc.map Prod.fst))

/-- Candidate contributed by one provider in aggregate_final_result: present
when the stored consensus entry is truthy and its comparison string equals
the majority string. -/
def candidateFrom (consensus : List (String × Option JVal)) (field mc : String) : List JVal :=
  match consensus.lookup field with
  | some (some obj) =>
    if pyTruthy obj then
      if pyStr (unwrapValue obj) = mc then [obj] else []
    else []
  | _ => []

/-- Final object chosen for a field by aggregate_final_result: the first
candidate in provider order, a dict with a "value" key kept as is and
anything else wrapped as a value and source pair. -/
def finalObjFor (oc ac gc : List (String × Option JVal)) (field mc : String) : JVal :=
  match candidateFrom oc field mc ++ candidateFrom ac field mc ++ candidateFrom gc field mc with
  | [] => .vobj .vnull .vnull
  | c :: _ =>
    match c with
    | .vobj v s => .vobj v s
    | .vobjNS v => .vobjNS v
    | c => .vobj c .vnull

/-- Output structure of aggregate_final_result. -/
structure AggResult where
  final_data : List (String × Option JVal)
  field_confidence : List (String × ℚ)
  overall_confidence : ℚ
  confidence_grade : String
  consistency_openai : ℚ
  consistency_anthropic : ℚ
  consistency_google : ℚ
  cross_model_agreement : ℚ
deriving DecidableEq

/-- Per-field outcome of the aggregation loop: final object (none models the
Python None stored for a field without contributors) and confidence. -/
def aggregateField (oc ac gc : List (String × Option JVal)) (avg_intra : ℚ)
    (field : String) : Option JVal × ℚ :=
  let comp := compareField oc ac gc field
  let valid_values := [comp.openai, comp.anthropic, comp.google].filter (fun v => v != JVal.vnull)
  if valid_values = [] then (none, 0)
  else
    let m := mostCommon (valid_values.map pyStr)
    let final_obj := finalObjFor oc ac gc field m.1
    let confidence := (m.2 : ℚ) / (valid_values.length : ℚ) * CROSS_MODEL_WEIGHT
      + avg_intra * INTRA_MODEL_WEIGHT
    (some final_obj, pyRound 3 confidence)

/-- The valid_values list of the aggregation loop for one field: the three
representative values of compare_cross_model_results with the nulls of
non-contributing providers filtered out. -/
def validValues (oc ac gc : List (String × Option JVal)) (field : String) : List JVal :=
  let comp := compareField oc ac gc field
  [comp.openai, comp.anthropic, comp.google].filter (fun v => v != JVal.vnull)

/-- ResultValidator.aggregate_final_result.  Iterating the field_comparison
dict visits each distinct field once even when field_order repeats a field,
because repeated dict writes of identical values collapse; firstOccs performs
that collapse. -/
def aggregate_final_result (openai_results anthropic_results google_results : List RawResult)
    (field_order : List String) : AggResult :=
  let oC := calculate_intra_model_consistency openai_results
  let aC := calculate_intra_model_consistency anthropic_results
  let gC := calculate_intra_model_consistency google_results
  let oc := _get_consensus_result openai_results
  let ac := _get_consensus_result anthropic_results
  let gc := _get_consensus_result google_results
  let fields := firstOccs (comparisonFields oc ac gc field_order)
  let comps := fields.map (compareField oc ac gc)
  let overall_agreement : ℚ :=
    if comps.length = 0 then 0
    else ((comps.filter (·.all_match)).length : ℚ) / (comps.length : ℚ)
  let avg_intra := (oC + aC + gC) / 3
  let perField := fields.map (fun f => (f, aggregateField oc ac gc avg_intra f))
  let field_confidence := perField.map (fun p => (p.1, p.2.2))
  let overall_confidence : ℚ :=
    if field_confidence.length = 0 then 0
    else (field_confidence.map (·.2)).sum / (field_confidence.length : ℚ)
  { final_data := perField.map (fun p => (p.1, p.2.1))
    field_confidence := field_confidence
    overall_confidence := pyRound 3 overall_confidence
    confidence_grade :=
      if overall_confidence ≥ CONFIDENCE_THRESHOLD_HIGH then "높음"
      else if overall_confidence ≥ CONFIDENCE_THRESHOLD_MEDIUM then "중간"
      else "낮음"
    consistency_openai := pyRound 3 oC
    consistency_anthropic := pyRound 3 aC
    consistency_google := pyRound 3 gC
    cross_model_agreement := pyRound 3 overall_agreement }

/-! ### Spec-side reformulations used by refinement claims.  These follow the
wording of the specification (as amended), not the source, and exist only to
be compared against the source embeddings above. -/

/-- Spec wording of the representative choice: the first-seen matching object
carrying a truthy source and, failing that, the last-seen matching object. -/
def specRepr (mc : String) (objs : List JVal) : Option JVal :=
  match objs.find? (fun o => strOfObj o == mc && hasTruthySource o) with
  | some o => some o
  | none => (objs.filter (fun o => strOfObj o == mc)).getLast?

/-- Spec wording of the per-provider consensus: same scaffolding as the
source function with the representative chosen by specRepr. -/
def specConsensus (results : List RawResult) : List (String × Option JVal) :=
  match results with
  | [] => []
  | r0 :: _ =>
    if ¬ dataTruthy r0.data then []
    else
      ((r0.data.getD []).map Prod.fst).map (fun field =>
        let full_objects := fieldValues results field
        if full_objects = [] then (field, none)
        else
          let mc := (mostCommon (full_objects.map strOfObj)).1
          (field, specRepr mc full_objects))

/-- Normalisation applied to the chosen final object: dicts carrying a value
key pass through unchanged, anything else is wrapped with a null source. -/
def normalizeFinal (c : JVal) : JVal :=
  match c with
  | .vobj v s => .vobj v s
  | .vobjNS v => .vobjNS v
  | c => .vobj c .vnull

/-- Representative objects stored for a field, in provider order, dropping
absent entries and entries stored as the Python None. -/
def providerReps (oc ac gc : List (String × Option JVal)) (field : String) : List JVal :=
  [oc.lookup field, ac.lookup field, gc.lookup field].filterMap (fun e =>
    match e with
    | some (some o) => some o
    | _ => none)

/-- Spec wording (as amended) of the final choice for a field: the first
truthy representative whose comparison string equals the majority string,
normalised; a null-and-null pair when no representative qualifies. -/
def specChosen (reps : List JVal) (mc : String) : JVal :=
  match reps.find? (fun o => pyTruthy o && (pyStr (unwrapValue o) == mc)) with
  | some c => normalizeFinal c
  | none => .vobj .vnull .vnull

/-- Representative stored by one provider for a field: a singleton when the
entry exists and is not the Python None, empty otherwise. -/
def repOf (c : List (String × Option JVal)) (field : String) : List JVal :=
  match List.lookup field c with
  | some (some o) => [o]
  | _ => []

/-! ### Section C: the orchestrator of agent_orchestrator.py.

Wall-clock time and the cooperative scheduling of asyncio are not shallowly
embeddable; everything time-dependent is supplied as explicit data.  The
outcome of asyncio.gather is a list of per-task values in task order, given
to run_all_agents as an argument, and the monitoring loop of a single agent
is summarised by a RunPhaseOutcome oracle whose constructors correspond
one-to-one to the return sites of the source. -/

/-- Terminal status stored in the result dict of one agent. -/
inductive AgentOutcomeStatus where
  | success
  | failed
  | cancelled
deriving DecidableEq

/-- Result dict returned by _run_single_agent; agent_info is flattened into
the provider and agent_id fields, and a missing error key is none. -/
structure AgentResult where
  provider : String
  agent_id : Nat
  data : List (String × JVal)
  execution_time : ℚ
  status : AgentOutcomeStatus
  error : Option String
deriving DecidableEq

/-- Exception classes of utils/error_handler.py together with the message
text carried by the exception object. -/
inductive ExnKind where
  | apiKey
  | rateLimit
  | timeoutErr
  | invalidResponse
  | other
deriving DecidableEq

structure ExnInfo where
  kind : ExnKind
  msg : String
deriving DecidableEq

/-- get_user_friendly_error_message of utils/error_handler.py. -/
def get_user_friendly_error_message (e : ExnInfo) : String :=
  match e.kind with
  | .apiKey => "❌ API 키가 유효하지 않습니다. API 키를 확인해주세요."
  | .rateLimit => "⚠️ API 호출 한도에 도달했습니다. 잠시 후 다시 시도해주세요."
  | .timeoutErr => "⏱️ 요청 시간이 초과되었습니다. 네트워크 연결을 확인해주세요."
  | .invalidResponse => "⚠️ 응답 형식이 올바르지 않습니다. 다시 시도해주세요."
  | .other => "❌ 오류가 발생했습니다: " ++ e.msg

/-- Element of the list produced by asyncio.gather with return_exceptions
set: either an exception object or the result dict of the task. -/
inductive GatherOutcome where
  | exn (e : ExnInfo)
  | res (r : AgentResult)
deriving DecidableEq

structure AgentInfo where
  provider : String
  agent_id : Nat
deriving DecidableEq

structure ErrorInfo where
  provider : String
  agent_id : Nat
  error : String
  error_message : String
deriving DecidableEq

/-- execution_info dict of run_all_agents; execution_time_seconds is wall
clock and stays outside the model. -/
structure ExecutionInfo where
  total_agents : Nat
  successful_agents : Nat
  failed_agents : Nat
  cancelled_agents : Nat
  openai_count : Nat
  anthropic_count : Nat
  google_count : Nat
  errors : List ErrorInfo
deriving DecidableEq

structure RunOutput where
  openai_results : List AgentResult
  anthropic_results : List AgentResult
  google_results : List AgentResult
  execution_info : ExecutionInfo
deriving DecidableEq

/-- api_keys dict: a provider entry may be absent or hold a key string. -/
structure ApiKeys where
  openai : Option String
  anthropic : Option String
  google : Option String
deriving DecidableEq

/-- Python truthiness of api_keys.get(provider). -/
def keyTruthy : Option String → Bool
  | none => false
  | some s => s != ""

structure AgentCounts where
  openai : Nat
  anthropic : Nat
  google : Nat
deriving DecidableEq

/-- Agent launch list of run_all_agents: one (provider, slot) per requested
agent of every provider with a truthy credential and a positive count, in
the fixed order OpenAI, Anthropic, Google. -/
def buildAgentInfo (keys : ApiKeys) (counts : AgentCounts) : List AgentInfo :=
  (if keyTruthy keys.openai ∧ 0 < counts.openai then
    (List.range counts.openai).map (fun i => ⟨"OpenAI", i + 1⟩) else []) ++
  (if keyTruthy keys.anthropic ∧ 0 < counts.anthropic then
    (List.range counts.anthropic).map (fun i => ⟨"Anthropic", i + 1⟩) else []) ++
  (if keyTruthy keys.google ∧ 0 < counts.google then
    (List.range counts.google).map (fun i => ⟨"Google", i + 1⟩) else [])

/-- Accumulator of the classification loop over the gathered outcomes. -/
structure FanAcc where
  openai : List AgentResult
  anthropic : List AgentResult
  google : List AgentResult
  errors : List ErrorInfo
  cancelled : Nat
deriving DecidableEq

/-- Error entry appended for an outcome, when the loop classifies it as an
exception or as a result dict with failed status. -/
def errorEntryOf (p : GatherOutcome × AgentInfo) : Option ErrorInfo :=
  match p.1 with
  | .exn e => some ⟨p.2.provider, p.2.agent_id, e.msg, get_user_friendly_error_message e⟩
  | .res r =>
    if r.status = .failed then
      some ⟨p.2.provider, p.2.agent_id, r.error.getD "알 수 없는 오류", r.error.getD "알 수 없는 오류"⟩
    else none

/-- Body of the classification loop of run_all_agents. -/
def fanInStep (acc : FanAcc) (p : GatherOutcome × AgentInfo) : FanAcc :=
  match p.1 with
  | .exn e =>
    { acc with errors := acc.errors ++
        [⟨p.2.provider, p.2.agent_id, e.msg, get_user_friendly_error_message e⟩] }
  | .res r =>
    if r.status = .cancelled then { acc with cancelled := acc.cancelled + 1 }
    else if r.status = .failed then
      { acc with errors := acc.errors ++
          [⟨p.2.provider, p.2.agent_id, r.error.getD "알 수 없는 오류", r.error.getD "알 수 없는 오류"⟩] }
    else
      if p.2.provider = "OpenAI" then { acc with openai := acc.openai ++ [r] }
      else if p.2.provider = "Anthropic" then { acc with anthropic := acc.anthropic ++ [r] }
      else if p.2.provider = "Google" then { acc with google := acc.google ++ [r] }
      else acc

/-- AgentOrchestrator.run_all_agents: the fan-in classification of the
gathered outcomes.  A falsy agent_counts argument (None or an empty dict) is
the none case and selects the 3/3/3 default; outcomes holds the gather list
in task order and is truncated by zip exactly as in the source. -/
def run_all_agents (keys : ApiKeys) (agent_counts : Option AgentCounts)
    (outcomes : List GatherOutcome) : RunOutput :=
  let counts := agent_counts.getD ⟨3, 3, 3⟩
  let infos := buildAgentInfo keys counts
  let acc := (outcomes.zip infos).foldl fanInStep ⟨[], [], [], [], 0⟩
  { openai_results := acc.openai
    anthropic_results := acc.anthropic
    google_results := acc.google
    execution_info :=
      { total_agents := infos.length
        successful_agents := acc.openai.length + acc.anthropic.length + acc.google.length
        failed_agents := acc.errors.length
        cancelled_agents := acc.cancelled
        openai_count := acc.openai.length
        anthropic_count := acc.anthropic.length
        google_count := acc.google.length
        errors := acc.errors } }

/-- Key "<provider>-<slot>" used by the status maps and cancellation lists. -/
def agentKey (provider : String) (agent_id : Nat) : String :=
  provider ++ "-" ++ toString agent_id

/-- Staggered start offset of _run_single_agent. -/
def staggerOffset (provider : String) (agent_id : Nat) : ℚ :=
  if provider = "Anthropic" then 5 + ((agent_id : ℚ) - 1) * 15
  else (if provider = "OpenAI" then 0 else if provider = "Google" then 3 else 0)
    + (agent_id : ℚ) * (3 / 2)

def GOOGLE_STUCK_TIMEOUT : ℚ := 300

/-- Outcome of the monitoring loop once an agent passed the staggered wait;
the constructors correspond one-to-one to the return sites of the running
phase of _run_single_agent (task completion, the in-loop cancellation check,
the Google stuck watchdog, a caught CancelledError, a caught exception).
Which outcome occurs depends on wall-clock behaviour outside the model. -/
inductive RunPhaseOutcome where
  | completes (data : List (String × JVal)) (elapsed : ℚ)
  | cancelHit (elapsed : ℚ)
  | watchdogHit (elapsed : ℚ)
  | cancelledErr (elapsed : ℚ)
  | raises (e : ExnInfo) (elapsed : ℚ)
deriving DecidableEq

/-- Time-dependent observations of one supervised run: the cancellation list
at the pre-start check, whether any once-per-second check during the
staggered wait observed a cancellation, and the monitoring loop outcome. -/
structure RunEnv where
  cancelled_agents : List String
  wait_cancel_seen : Bool
  phase : RunPhaseOutcome
deriving DecidableEq

/-- AgentOrchestrator._run_single_agent.  The wait loop runs int(offset)
times, so an in-wait cancellation requires a positive offset whose floor is
at least one; the stuck message interpolates int(GOOGLE_STUCK_TIMEOUT). -/
def _run_single_agent (provider : String) (agent_id : Nat) (env : RunEnv) : AgentResult :=
  let key := agentKey provider agent_id
  if key ∈ env.cancelled_agents then
    ⟨provider, agent_id, [], 0, .cancelled, none⟩
  else
    let offset := staggerOffset provider agent_id
    if env.wait_cancel_seen ∧ 0 < offset ∧ 1 ≤ ratFloor offset then
      ⟨provider, agent_id, [], 0, .cancelled, none⟩
    else
      match env.phase with
      | .completes data t => ⟨provider, agent_id, data, pyRound 2 t, .success, none⟩
      | .cancelHit t => ⟨provider, agent_id, [], t, .cancelled, some "사용자에 의해 중단됨"⟩
      | .watchdogHit t =>
          ⟨provider, agent_id, [], t, .failed, some "진행률 고정으로 인한 자동 중단 (300초)"⟩
      | .cancelledErr t => ⟨provider, agent_id, [], t, .cancelled, some "작업이 취소되었습니다."⟩
      | .raises e t => ⟨provider, agent_id, [], t, .failed, some e.msg⟩

/-! ### Section B: the resilient JSON decoder of base_client.py.

The decoder consumes and produces Python JSON data; the value space is
embedded below with integer numerals (float literals never appear in the
claims and are left outside the model, as noted at the number parser), and
objects as key-value lists with the overwrite-in-place insertion of a Python
dict.  Parsing is modelled after the strict json.loads scanner including its
error message kinds; the error position is carried as the length of the
remaining input.  All recursions take explicit fuel so that every function
evaluates inside the kernel. -/

mutual
inductive Json where
  | jnull
  | jbool (b : Bool)
  | jint (n : Int)
  | jstr (s : String)
  | jarr (xs : JsonArr)
  | jobj (kvs : JsonObj)
inductive JsonArr where
  | anil
  | acons (hd : Json) (tl : JsonArr)
inductive JsonObj where
  | onil
  | ocons (k : String) (v : Json) (tl : JsonObj)
end

deriving instance DecidableEq for Json

/-- Membership of a key in an object. -/
def objMem (k : String) : JsonObj → Bool
  | .onil => false
  | .ocons k0 _ t => k0 == k || objMem k t

/-- Python dict insertion: an existing key keeps its position and gets the
new value, a fresh key is appended at the end. -/
def objInsert : JsonObj → String → Json → JsonObj
  | .onil, k, v => .ocons k v .onil
  | .ocons k0 v0 t, k, v =>
    if k0 = k then .ocons k v t else .ocons k0 v0 (objInsert t k v)

def objAppend : JsonObj → JsonObj → JsonObj
  | .onil, b => b
  | .ocons k v t, b => .ocons k v (objAppend t b)

def listToArr : List Json → JsonArr
  | [] => .anil
  | x :: xs => .acons x (listToArr xs)

/-- Keys of an object in order. -/
def objKeys : JsonObj → List String
  | .onil => []
  | .ocons k _ t => k :: objKeys t

def keysFresh : JsonObj → Bool
  | .onil => true
  | .ocons k _ t => !objMem k t && keysFresh t

/- Well-formedness used by the round-trip claims: object keys are distinct
at every level. -/
mutual
def wfJson : Json → Bool
  | .jarr xs => wfArr xs
  | .jobj kvs => keysFresh kvs && wfObj kvs
  | _ => true
def wfArr : JsonArr → Bool
  | .anil => true
  | .acons h t => wfJson h && wfArr t
def wfObj : JsonObj → Bool
  | .onil => true
  | .ocons _ v t => wfJson v && wfObj t
end

/-! #### Serializer: json.dumps with its defaults (ensure_ascii true,
item separator ", ", key separator ": "). -/

def hexDigitChar (n : Nat) : Char :=
  if n < 10 then Char.ofNat (48 + n) else Char.ofNat (87 + n)

/-- Escape of the form backslash-u-XXXX with lowercase hex digits. -/
def uEsc (n : Nat) : List Char :=
  '\\' :: 'u' :: hexDigitChar (n / 4096 % 16) :: hexDigitChar (n / 256 % 16) ::
    hexDigitChar (n / 16 % 16) :: hexDigitChar (n % 16) :: []

/-- Escaping of one character in a dumped string: the two-character escapes,
u-escapes for other control characters and for everything beyond ASCII
(surrogate pairs beyond the basic plane), the character itself otherwise. -/
def escChar (c : Char) : List Char :=
  if c = '"' then ['\\', '"']
  else if c = '\\' then ['\\', '\\']
  else if c = '\n' then ['\\', 'n']
  else if c = '\r' then ['\\', 'r']
  else if c = '\t' then ['\\', 't']
  else if c = Char.ofNat 8 then ['\\', 'b']
  else if c = Char.ofNat 12 then ['\\', 'f']
  else if c.toNat < 32 then uEsc c.toNat
  else if c.toNat < 127 then [c]
  else if c.toNat < 65536 then uEsc c.toNat
  else uEsc (55296 + (c.toNat - 65536) / 1024) ++ uEsc (56320 + (c.toNat - 65536) % 1024)

def escData : List Char → List Char
  | [] => []
  | c :: rest => escChar c ++ escData rest

def encString (s : String) : List Char :=
  '"' :: escData s.data ++ ['"']

/-- Decimal digits of a natural, most significant first, written with fuel
so that the kernel can evaluate it. -/
def natEncAux : Nat → Nat → List Char → List Char
  | 0, _, acc => acc
  | fuel + 1, n, acc =>
    if n < 10 then Char.ofNat (48 + n) :: acc
    else natEncAux fuel (n / 10) (Char.ofNat (48 + n % 10) :: acc)

def natEnc (n : Nat) : List Char := natEncAux (n + 1) n []

def intEnc (n : Int) : List Char :=
  if n < 0 then '-' :: natEnc n.natAbs else natEnc n.natAbs

mutual
def encJson : Json → List Char
  | .jnull => ['n', 'u', 'l', 'l']
  | .jbool true => ['t', 'r', 'u', 'e']
  | .jbool false => ['f', 'a', 'l', 's', 'e']
  | .jint n => intEnc n
  | .jstr s => encString s
  | .jarr .anil => ['[', ']']
  | .jarr (.acons h t) => '[' :: (encJson h ++ encArrTail t) ++ [']']
  | .jobj .onil => ['{', '}']
  | .jobj (.ocons k v t) =>
      '{' :: (encString k ++ ':' :: ' ' :: encJson v ++ encMembersTail t) ++ ['}']
def encArrTail : JsonArr → List Char
  | .anil => []
  | .acons h t => ',' :: ' ' :: encJson h ++ encArrTail t
def encMembersTail : JsonObj → List Char
  | .onil => []
  | .ocons k v t => ',' :: ' ' :: encString k ++ ':' :: ' ' :: encJson v ++ encMembersTail t
end

def json_dumps (v : Json) : String := String.mk (encJson v)

/-! #### Parser: the strict json.loads scanner. -/

/-- Parse error with the message kind of the corresponding JSONDecodeError
and the length of the input remaining at the error point. -/
structure PErr where
  msg : String
  rem : Nat
deriving DecidableEq

/-- Whitespace skipped by json.loads: space, tab, newline, carriage return. -/
def isJsonWs (c : Char) : Bool :=
  c = ' ' || c = '\t' || c = '\n' || c = '\r'

def skipWs (cs : List Char) : List Char := cs.dropWhile isJsonWs

def isDigitC (c : Char) : Bool := '0' ≤ c && c ≤ '9'

def digitVal (c : Char) : Nat := c.toNat - 48

def foldDigits (ds : List Char) (acc : Nat) : Nat :=
  ds.foldl (fun a c => a * 10 + digitVal c) acc

def hexVal? (c : Char) : Option Nat :=
  if '0' ≤ c && c ≤ '9' then some (c.toNat - 48)
  else if 'a' ≤ c && c ≤ 'f' then some (c.toNat - 87)
  else if 'A' ≤ c && c ≤ 'F' then some (c.toNat - 55)
  else none

def parseHex4 : List Char → Option (Nat × List Char)
  | c1 :: c2 :: c3 :: c4 :: rest =>
    match hexVal? c1, hexVal? c2, hexVal? c3, hexVal? c4 with
    | some h1, some h2, some h3, some h4 =>
        some (h1 * 4096 + h2 * 256 + h3 * 16 + h4, rest)
    | _, _, _, _ => none
  | _ => none

/-- String scanner of json.loads in strict mode, after the opening quote;
the accumulator holds the decoded characters in reverse.  A lone surrogate
escape would produce a string the Lean Char type cannot represent and is
rejected here, a divergence that no claim reaches. -/
def parseStringBody (fuel : Nat) (cs : List Char) (acc : List Char) :
    Except PErr (String × List Char) :=
  match fuel with
  | 0 => .error ⟨"fuel exhausted", cs.length⟩
  | fuel + 1 =>
    match cs with
    | [] => .error ⟨"Unterminated string starting at", 0⟩
    | c :: rest =>
      if c = '"' then .ok (String.mk acc.reverse, rest)
      else if c = '\\' then
        match rest with
        | [] => .error ⟨"Unterminated string starting at", 0⟩
        | e :: rest2 =>
          if e = '"' then parseStringBody fuel rest2 ('"' :: acc)
          else if e = '\\' then parseStringBody fuel rest2 ('\\' :: acc)
          else if e = '/' then parseStringBody fuel rest2 ('/' :: acc)
          else if e = 'b' then parseStringBody fuel rest2 (Char.ofNat 8 :: acc)
          else if e = 'f' then parseStringBody fuel rest2 (Char.ofNat 12 :: acc)
          else if e = 'n' then parseStringBody fuel rest2 ('\n' :: acc)
          else if e = 'r' then parseStringBody fuel rest2 ('\r' :: acc)
          else if e = 't' then parseStringBody fuel rest2 ('\t' :: acc)
          else if e = 'u' then
            match parseHex4 rest2 with
            | none => .error ⟨"Invalid \\uXXXX escape", rest2.length⟩
            | some (n, rest3) =>
              if 55296 ≤ n && n < 56320 then
                match rest3 with
                | '\\' :: 'u' :: rest4 =>
                  match parseHex4 rest4 with
                  | some (n2, rest5) =>
                    if 56320 ≤ n2 && n2 < 57344 then
                      parseStringBody fuel rest5
                        (Char.ofNat (65536 + (n - 55296) * 1024 + (n2 - 56320)) :: acc)
                    else .error ⟨"lone surrogate outside the model", rest3.length⟩
                  | none => .error ⟨"Invalid \\uXXXX escape", rest4.length⟩
                | _ => .error ⟨"lone surrogate outside the model", rest3.length⟩
              else if 56320 ≤ n && n < 57344 then
                .error ⟨"lone surrogate outside the model", rest3.length⟩
              else parseStringBody fuel rest3 (Char.ofNat n :: acc)
          else .error ⟨"Invalid \\escape", rest.length⟩
      else if c.toNat < 32 then .error ⟨"Invalid control character at", cs.length⟩
      else parseStringBody fuel rest (c :: acc)

/-- Integer part of the number grammar of json.loads: an optional minus and
either a single zero or a nonzero digit followed by digits. -/
def parseUIntTok (cs : List Char) : Except PErr (Nat × List Char) :=
  match cs with
  | '0' :: rest => .ok (0, rest)
  | c :: rest =>
    if isDigitC c then
      .ok (foldDigits ((c :: rest).takeWhile isDigitC) 0, (c :: rest).dropWhile isDigitC)
    else .error ⟨"Expecting value", (c :: rest).length⟩
  | [] => .error ⟨"Expecting value", 0⟩

/-- Test for a fraction or exponent continuation, which would make the token
a Python float; float values are outside the model and rejected. -/
def floatFollows : List Char → Bool
  | '.' :: c :: _ => isDigitC c
  | 'e' :: '+' :: c :: _ => isDigitC c
  | 'e' :: '-' :: c :: _ => isDigitC c
  | 'e' :: c :: _ => isDigitC c
  | 'E' :: '+' :: c :: _ => isDigitC c
  | 'E' :: '-' :: c :: _ => isDigitC c
  | 'E' :: c :: _ => isDigitC c
  | _ => false

def parseIntTok (cs : List Char) : Except PErr (Int × List Char) :=
  match cs with
  | '-' :: rest =>
    match parseUIntTok rest with
    | .ok (n, r) =>
      if floatFollows r then .error ⟨"float literal outside the model", r.length⟩
      else .ok (-(n : Int), r)
    | .error e => .error e
  | _ =>
    match parseUIntTok cs with
    | .ok (n, r) =>
      if floatFollows r then .error ⟨"float literal outside the model", r.length⟩
      else .ok ((n : Int), r)
    | .error e => .error e

mutual
def parseValue (fuel : Nat) (cs : List Char) : Except PErr (Json × List Char) :=
  match fuel with
  | 0 => .error ⟨"fuel exhausted", cs.length⟩
  | fuel + 1 =>
    match cs with
    | [] => .error ⟨"Expecting value", 0⟩
    | c :: rest =>
      if c = '"' then
        match parseStringBody fuel rest [] with
        | .ok (s, r) => .ok (.jstr s, r)
        | .error e => .error e
      else if c = '{' then
        match skipWs rest with
        | '}' :: r => .ok (.jobj .onil, r)
        | r => parseMembers fuel r .onil
      else if c = '[' then
        match skipWs rest with
        | ']' :: r => .ok (.jarr .anil, r)
        | r => parseItems fuel r []
      else if c = 't' then
        match cs with
        | 't' :: 'r' :: 'u' :: 'e' :: r => .ok (.jbool true, r)
        | _ => .error ⟨"Expecting value", cs.length⟩
      else if c = 'f' then
        match cs with
        | 'f' :: 'a' :: 'l' :: 's' :: 'e' :: r => .ok (.jbool false, r)
        | _ => .error ⟨"Expecting value", cs.length⟩
      else if c = 'n' then
        match cs with
        | 'n' :: 'u' :: 'l' :: 'l' :: r => .ok (.jnull, r)
        | _ => .error ⟨"Expecting value", cs.length⟩
      else if c = '-' || isDigitC c then
        match parseIntTok cs with
        | .ok (n, r) => .ok (.jint n, r)
        | .error e => .error e
      else .error ⟨"Expecting value", cs.length⟩
def parseMembers (fuel : Nat) (cs : List Char) (acc : JsonObj) :
    Except PErr (Json × List Char) :=
  match fuel with
  | 0 => .error ⟨"fuel exhausted", cs.length⟩
  | fuel + 1 =>
    match cs with
    | '"' :: r =>
      match parseStringBody fuel r [] with
      | .error e => .error e
      | .ok (k, r2) =>
        match skipWs r2 with
        | ':' :: r4 =>
          match parseValue fuel (skipWs r4) with
          | .error e => .error e
          | .ok (v, r5) =>
            match skipWs r5 with
            | ',' :: r7 => parseMembers fuel (skipWs r7) (objInsert acc k v)
            | '}' :: r7 => .ok (.jobj (objInsert acc k v), r7)
            | r6 => .error ⟨"Expecting \x27,\x27 delimiter", r6.length⟩
        | r3 => .error ⟨"Expecting \x27:\x27 delimiter", r3.length⟩
    | _ => .error ⟨"Expecting property name enclosed in double quotes", cs.length⟩
def parseItems (fuel : Nat) (cs : List Char) (acc : List Json) :
    Except PErr (Json × List Char) :=
  match fuel with
  | 0 => .error ⟨"fuel exhausted", cs.length⟩
  | fuel + 1 =>
    match parseValue fuel cs with
    | .error e => .error e
    | .ok (v, r) =>
      match skipWs r with
      | ',' :: r2 => parseItems fuel (skipWs r2) (acc ++ [v])
      | ']' :: r2 => .ok (.jarr (listToArr (acc ++ [v])), r2)
      | r1 => .error ⟨"Expecting \x27,\x27 delimiter", r1.length⟩
end

/-- json.loads on a character list: skip surrounding whitespace, scan one
value, and reject trailing content. -/
def json_loads_chars (cs : List Char) : Except PErr Json :=
  match parseValue (2 * cs.length + 2) (skipWs cs) with
  | .error e => .error e
  | .ok (v, rest) =>
    match skipWs rest with
    | [] => .ok v
    | r => .error ⟨"Extra data", r.length⟩

def json_loads (s : String) : Except PErr Json := json_loads_chars s.data

/-! #### Repair transforms of parse_json_response.

Each of the re.sub calls of the source is modelled by a character scanner
with the exact leftmost, non-overlapping semantics of re.sub for its
pattern: lookbehind and lookahead inspect the original characters, a failed
start position advances by one character, and scanning resumes right after
a replaced span.  The scanners carry fuel (one unit per step, every step
consumes at least one character) so the kernel can evaluate them. -/

/-- Whitespace class of str.strip and of the ASCII part of the regex class
backslash-s: space, tab, newline, carriage return, vertical tab, form feed. -/
def isPySpace (c : Char) : Bool :=
  c = ' ' || c = '\t' || c = '\n' || c = '\r' || c = Char.ofNat 11 || c = Char.ofNat 12

def pyStrip (cs : List Char) : List Char :=
  ((cs.dropWhile isPySpace).reverse.dropWhile isPySpace).reverse

/-- Model of re.search for the greedy brace pattern with DOTALL: a match
exists exactly when the first opening brace precedes the last closing brace,
and it spans from the one to the other. -/
def extractBraces (cs : List Char) : List Char :=
  match cs.findIdx? (fun c => c = '{') with
  | none => cs
  | some i =>
    match cs.reverse.findIdx? (fun c => c = '}') with
    | none => cs
    | some jr =>
      let j := cs.length - 1 - jr
      if i < j then (cs.drop i).take (j - i + 1) else cs

/-- Lookahead of the colon-string pattern: optional whitespace and then a
comma or a closing brace. -/
def t2Look (cs : List Char) : Bool :=
  match cs.dropWhile isPySpace with
  | ',' :: _ => true
  | '}' :: _ => true
  | _ => false

/-- Lazy scan of the non-greedy group: the shortest prefix followed by a
quote at which the lookahead holds.  Returns the group and the characters
after that quote. -/
def lazyFind : List Char → Option (List Char × List Char)
  | [] => none
  | c :: rest =>
    if c = '"' && t2Look rest then some ([], rest)
    else
      match lazyFind rest with
      | some (g, a) => some (c :: g, a)
      | none => none

/-- Match attempt of the colon-string pattern at a position right after a
colon: a whitespace run, a quote, the lazy group, its closing quote and the
lookahead.  Returns the group and the rest after the closing quote. -/
def tryColonStr (cs : List Char) : Option (List Char × List Char) :=
  match cs.dropWhile isPySpace with
  | '"' :: content =>
    match lazyFind content with
    | some (g, a) => some (g, a)
    | none => none
  | _ => none

/-- Scanner shared by the second and the sixth repair transform, which use
the same pattern with different group replacements; prev tracks the original
character before the current position for the colon lookbehind. -/
def sccAux (repl : List Char → List Char) : Nat → Option Char → List Char → List Char
  | 0, _, cs => cs
  | fuel + 1, prev, cs =>
    match cs with
    | [] => []
    | c :: rest =>
      if prev = some ':' then
        match tryColonStr cs with
        | some (g, a) => ('"' :: repl g ++ ['"']) ++ sccAux repl fuel (some '"') a
        | none => c :: sccAux repl fuel (some c) rest
      else c :: sccAux repl fuel (some c) rest

/-- Replacement of the second transform: escape raw newlines in the group. -/
def replNewline (g : List Char) : List Char :=
  g.foldr (fun c acc => if c = '\n' then '\\' :: 'n' :: acc else c :: acc) []

/-- Replacement of the sixth transform: escape quotes in the group. -/
def replQuote (g : List Char) : List Char :=
  g.foldr (fun c acc => if c = '"' then '\\' :: '"' :: acc else c :: acc) []

def t2 (cs : List Char) : List Char := sccAux replNewline (cs.length + 1) none cs

def t6 (cs : List Char) : List Char := sccAux replQuote (cs.length + 1) none cs

/-- Third transform: drop a comma followed by optional whitespace and a
closing brace or bracket, keeping the bracket. -/
def t3Aux : Nat → List Char → List Char
  | 0, cs => cs
  | fuel + 1, cs =>
    match cs with
    | [] => []
    | ',' :: rest =>
      match rest.dropWhile isPySpace with
      | b :: r2 =>
        if b = '}' || b = ']' then b :: t3Aux fuel r2
        else ',' :: t3Aux fuel rest
      | [] => ',' :: t3Aux fuel rest
    | c :: rest => c :: t3Aux fuel rest

def t3 (cs : List Char) : List Char := t3Aux (cs.length + 1) cs

/-- Fourth transform, first pattern: closing brace, optional whitespace and
a quote become brace, comma, quote. -/
def t4aAux : Nat → List Char → List Char
  | 0, cs => cs
  | fuel + 1, cs =>
    match cs with
    | [] => []
    | '}' :: rest =>
      match rest.dropWhile isPySpace with
      | '"' :: r2 => '}' :: ' ' :: ',' :: ' ' :: '"' :: t4aAux fuel r2
      | _ => '}' :: t4aAux fuel rest
    | c :: rest => c :: t4aAux fuel rest

def t4a (cs : List Char) : List Char := t4aAux (cs.length + 1) cs

/-- Fourth transform, second pattern: a quote-free quoted string, optional
whitespace and a quote get a comma inserted; on a failed attempt the next
possible start is the closing quote of the attempted group. -/
def t4bAux : Nat → List Char → List Char
  | 0, cs => cs
  | fuel + 1, cs =>
    match cs with
    | [] => []
    | '"' :: rest =>
      let content := rest.takeWhile (fun c => c != '"')
      match rest.dropWhile (fun c => c != '"') with
      | '"' :: r3 =>
        match r3.dropWhile isPySpace with
        | '"' :: r5 => '"' :: content ++ '"' :: ',' :: ' ' :: '"' :: t4bAux fuel r5
        | _ => '"' :: content ++ t4bAux fuel ('"' :: r3)
      | _ => cs
    | c :: rest => c :: t4bAux fuel rest

def t4b (cs : List Char) : List Char := t4bAux (cs.length + 1) cs

/-- Literal alternatives of the fifth transform in alternation order. -/
def litPrefix? (cs : List Char) : Option (List Char × List Char) :=
  match cs with
  | 't' :: 'r' :: 'u' :: 'e' :: r => some (['t', 'r', 'u', 'e'], r)
  | 'f' :: 'a' :: 'l' :: 's' :: 'e' :: r => some (['f', 'a', 'l', 's', 'e'], r)
  | 'n' :: 'u' :: 'l' :: 'l' :: r => some (['n', 'u', 'l', 'l'], r)
  | _ => none

/-- Fifth transform: a literal or digit run, optional whitespace and a quote
get a comma inserted. -/
def t5Aux : Nat → List Char → List Char
  | 0, cs => cs
  | fuel + 1, cs =>
    match cs with
    | [] => []
    | c :: rest =>
      match
        (match litPrefix? cs with
          | some p => some p
          | none =>
            if isDigitC c then some (cs.takeWhile isDigitC, cs.dropWhile isDigitC)
            else none) with
      | some (tok, r) =>
        match r.dropWhile isPySpace with
        | '"' :: r2 => tok ++ ',' :: ' ' :: '"' :: t5Aux fuel r2
        | _ => c :: t5Aux fuel rest
      | none => c :: t5Aux fuel rest

def t5 (cs : List Char) : List Char := t5Aux (cs.length + 1) cs

/-- Failure data of the decoder: the text written to the error log and the
message carried by the raised InvalidResponseError. -/
structure DecodeFailure where
  logMessage : String
  errorMessage : String
deriving DecidableEq

/-- Rendering of str on a JSONDecodeError: message kind with line, column
and character position, the position taken against the text of the final
parse attempt. -/
def pyJsonErrorStr (s : List Char) (e : PErr) : String :=
  let pos := s.length - e.rem
  let consumed := s.take pos
  let line := 1 + consumed.count '\n'
  let col := (consumed.reverse.takeWhile (fun c => c != '\n')).length + 1
  e.msg ++ ": line " ++ toString line ++ " column " ++ toString col ++
    " (char " ++ toString pos ++ ")"

/-- BaseLLMClient.parse_json_response: strip, extract the outermost brace
span, then re-attempt a parse after each cumulative repair; on final failure
the log line carries the first 500 characters of the original response and
the raised error carries the attempt count and the last parse error. -/
def parse_json_response (provider : String) (response_text : String) :
    Except DecodeFailure Json :=
  let text1 := extractBraces (pyStrip response_text.data)
  match json_loads_chars text1 with
  | .ok v => .ok v
  | .error _ =>
    let r2 := t2 text1
    match json_loads_chars r2 with
    | .ok v => .ok v
    | .error _ =>
      let r3 := t3 r2
      match json_loads_chars r3 with
      | .ok v => .ok v
      | .error _ =>
        let r4 := t4a r3
        match json_loads_chars r4 with
        | .ok v => .ok v
        | .error _ =>
          let r5 := t4b r4
          match json_loads_chars r5 with
          | .ok v => .ok v
          | .error _ =>
            let r6 := t5 r5
            match json_loads_chars r6 with
            | .ok v => .ok v
            | .error _ =>
              let r7 := t6 r6
              match json_loads_chars r7 with
              | .ok v => .ok v
              | .error e7 =>
                let excStr := pyJsonErrorStr r7 e7
                .error
                  { logMessage := "[" ++ provider ++ "] JSON 파싱 최종 실패: " ++ excStr ++
                      "\n응답 일부: " ++ String.mk (response_text.data.take 500) ++ "..."
                    errorMessage :=
                      "응답을 JSON으로 파싱할 수 없습니다 (자동 복구 7단계 시도 실패): " ++ excStr }

/-- Corruption considered by the round-trip claim: a single trailing comma
inserted before the final closing brace of a dumped object. -/
def corruptTrailingComma (s : String) : String :=
  String.mk (s.data.dropLast ++ [',', '}'])

/-- Total accessors used to state concrete facts about decoder failures. -/
def decodeErrMsg (r : Except DecodeFailure Json) : String :=
  match r with
  | .error f => f.errorMessage
  | .ok _ => ""

def decodeLogMsg (r : Except DecodeFailure Json) : String :=
  match r with
  | .error f => f.logMessage
  | .ok _ => ""

def exceptErrorD (r : Except DecodeFailure Json) (d : DecodeFailure) : DecodeFailure :=
  match r with
  | .error f => f
  | .ok _ => d

/-! ### Concrete inputs referenced by the claims -/

def c1_openai : List RawResult := [⟨some [("X", .vint 10)]⟩, ⟨some [("X", .vint 10)]⟩]

def c1_anthropic : List RawResult := [⟨some [("X", .vint 12)]⟩]

def c1_result : AggResult := aggregate_final_result c1_openai c1_anthropic [] []

def c2_results : List RawResult :=
  [⟨some [("X", .vobj (.vint 10) .vnull)]⟩, ⟨some [("X", .vint 10)]⟩]

def c3_openai : List RawResult := [⟨some [("A", .vint 1)]⟩]

def c3_result : AggResult := aggregate_final_result c3_openai [] [] ["A", "B", "C"]

def c8_openai : List RawResult := [⟨some [("X", .vint 0)]⟩]

def c8_result : AggResult := aggregate_final_result c8_openai [] [] []

def c6_input : String := "abc123xyz"

def c7_val : Json :=
  .jobj (.ocons "a" (.jstr "he said \", x:  ") (.ocons "b" (.jstr "y") .onil))

def c7_mangled : Json :=
  .jobj (.ocons "a" (.jstr "he said \", x:") (.ocons "b" (.jstr "y") .onil))

/-- Total of all classification buckets of the fan-in accumulator. -/
def bucketSum (a : FanAcc) : Nat :=
  a.openai.length + a.anthropic.length + a.google.length + a.errors.length + a.cancelled


def isAlnumC (c : Char) : Bool :=
  isDigitC c || ('a' ≤ c && c ≤ 'z') || ('A' ≤ c && c ≤ 'Z')

def isIntVal : Json → Bool
  | .jint _ => true
  | .jnull => false
  | .jbool _ => false
  | .jstr _ => false
  | .jarr _ => false
  | .jobj _ => false

/-- Flat objects with alphanumeric keys and integer values: the restricted
class on which the trailing-comma repair is proved exact. -/
def flatIntObj : JsonObj → Bool
  | .onil => true
  | .ocons k v t => k.data.all isAlnumC && isIntVal v && flatIntObj t

/-- Member run of a dumped object, without the surrounding braces. -/
def membersEnc : JsonObj → List Char
  | .onil => []
  | .ocons k v t => encString k ++ ':' :: ' ' :: encJson v ++ encMembersTail t

/-- Python dict built by inserting the members of kvs in order. -/
def objInsertAll (acc : JsonObj) : JsonObj → JsonObj
  | .onil => acc
  | .ocons k v t => objInsertAll (objInsert acc k v) t

def arrToList : JsonArr → List Json
  | .anil => []
  | .acons h t => h :: arrToList t

/-- Continuations of a member run covered by the round-trip lemmas: the
closing brace, or the corrupting comma right before it. -/
def tailOK : List Char → Bool
  | '}' :: _ => true
  | ',' :: '}' :: _ => true
  | _ => false

/-- Outcome of scanning a member run followed by such a continuation. -/
def memResult (acc kvs : JsonObj) (tail : List Char) : Except PErr (Json × List Char) :=
  match tail with
  | '}' :: rest => .ok (.jobj (objInsertAll acc kvs), rest)
  | ',' :: rest => .error ⟨"Expecting property name enclosed in double quotes", rest.length⟩
  | _ => .error ⟨"", 0⟩

/-- First character allowed after a dumped value without altering its parse. -/
def restSafe : List Char → Bool
  | [] => true
  | c :: _ => c = ',' || c = '}' || c = ']'

/-- No scan position has a colon as previous character together with a
matching colon-string pattern, so the quote transforms change nothing. -/
def noColonQuote : Option Char → List Char → Bool
  | _, [] => true
  | prev, c :: rest =>
    (if prev = some (':' : Char) then (tryColonStr (c :: rest)).isNone else true)
      && noColonQuote (some c) rest

end ReportAnalysis

deriving instance DecidableEq for Except

namespace ReportAnalysis

/-! ## Theorems -/

/-! ### Lemmas about the consensus helpers -/

theorem pickBest_eq (mc : String) (objs : List JVal) (best : Option JVal) :
    pickBest mc objs best =
      match objs.find? (fun o => strOfObj o == mc && hasTruthySource o) with
      | some o => some o
      | none =>
        match (objs.filter (fun o => strOfObj o == mc)).getLast? with
        | some o => some o
        | none => best := by
  induction objs generalizing best with
  | nil => simp [pickBest]
  | cons o rest ih =>
    by_cases h1 : strOfObj o = mc
    · by_cases h2 : hasTruthySource o = true
      · simp [pickBest, h1, h2, List.find?]
      · have hb : (hasTruthySource o) = false := by simpa using h2
        simp only [pickBest, if_pos h1, hb, if_neg, Bool.false_eq_true, ite_false]
        rw [ih]
        simp only [List.find?, List.filter, h1, hb]
        simp only [beq_self_eq_true, Bool.true_and, Bool.and_false]
        cases hf : rest.find? (fun o => strOfObj o == mc && hasTruthySource o) with
        | some x => simp
        | none =>
          simp only []
          rw [List.getLast?_cons]
          cases hg : (rest.filter (fun o => strOfObj o == mc)).getLast? with
          | some x =>
            simp [List.getLastD_eq_getLast?, hg]
          | none =>
            simp [List.getLastD_eq_getLast?, hg]
    · simp only [pickBest, if_neg h1]
      rw [ih]
      simp only [List.find?, List.filter]
      have : (strOfObj o == mc) = false := by simpa using h1
      simp [this]

theorem pickBest_none_eq (mc : String) (objs : List JVal) :
    pickBest mc objs none = specRepr mc objs := by
  rw [pickBest_eq, specRepr]
  cases objs.find? (fun o => strOfObj o == mc && hasTruthySource o) with
  | some x => rfl
  | none =>
    cases (objs.filter (fun o => strOfObj o == mc)).getLast? with
    | some x => rfl
    | none => rfl

/-- C2: the claim that the representative value is the first-seen object with
the most frequent stringified value fails: with no source anywhere the loop
keeps overwriting and the last-seen matching object wins.  Here the first
result stores the value as a dict, the second stores the bare scalar, both
stringify to "10", and the representative is the bare scalar of the second
result, not the first-seen dict. -/
theorem claim_C2_counterexample :
    fieldValues c2_results "X" = [.vobj (.vint 10) .vnull, .vint 10] ∧
    strOfObj (.vobj (.vint 10) .vnull) = strOfObj (.vint 10) ∧
    _get_consensus_result c2_results = [("X", some (.vint 10))] ∧
    (JVal.vint 10) ≠ .vobj (.vint 10) .vnull := by
  refine ⟨by decide, by decide, by decide, by decide⟩

/-- C2 (amended): the representative for a field is the first-seen matching
object carrying a truthy source and, when no matching object carries one,
the last-seen matching object; _get_consensus_result equals the consensus
computed with that selection rule. -/
theorem claim_C2 (results : List RawResult) :
    _get_consensus_result results = specConsensus results := by
  unfold _get_consensus_result specConsensus
  cases results with
  | nil => rfl
  | cons r0 rest =>
    by_cases h : dataTruthy (r0.data) = true
    · simp only [h]
      refine congrArg _ (List.map_congr_left fun field _ => ?_)
      by_cases hfo : fieldValues (r0 :: rest) field = []
      · simp [hfo]
      · simp [hfo, pickBest_none_eq]
    · have : dataTruthy (r0.data) = false := by simpa using h
      simp [this]

/-! ### Rounding evaluation helpers -/

theorem ratFloor_eq (q : ℚ) : ratFloor q = ⌊q⌋ := (Rat.floor_def).symm

/-- Evaluation of pyRound 3 when the scaled value sits in the lower half of
its unit interval (which covers exact multiples of one thousandth as well). -/
theorem pyRound3_eval (q : ℚ) (k : ℤ) (h1 : (k : ℚ) ≤ q * 1000)
    (h2 : q * 1000 < (k : ℚ) + 1/2) : pyRound 3 q = (k : ℚ) / 1000 := by
  have hf : ⌊q * 1000⌋ = k := by
    rw [Int.floor_eq_iff]
    exact ⟨h1, lt_trans h2 (by norm_num)⟩
  have hr : roundHalfEven (q * 1000) = k := by
    rw [roundHalfEven, ratFloor_eq, hf]
    rw [if_pos]
    rw [sub_lt_iff_lt_add]
    calc q * 1000 < (k : ℚ) + 1/2 := h2
    _ = 1/2 + (k:ℚ) := by ring
  rw [pyRound]
  norm_num [hr]

/-- Intra consistency of the two identical OpenAI results of the C1
scenario. -/
theorem c1_intra_openai : calculate_intra_model_consistency c1_openai = 1 := by
  simp +decide only [calculate_intra_model_consistency, c1_openai, dataTruthy, fieldValues,
    List.lookup, List.filterMap, List.length, mostCommon, firstOccs, List.count, List.countP,
    pyStr, pyRepr, unwrapValue, List.map, List.foldl, Prod.fst, Option.getD]
  have h10 : toString (10 : Int) = "10" := by decide
  simp only [h10]
  have hg : List.countP.go (fun x => x == "10") ["10", "10"] 0 = 2 := by decide
  rw [hg]
  norm_num

/-- Field confidence computed by the C1 scenario aggregation. -/
theorem c1_field_confidence : c1_result.field_confidence = [("X", 7/10)] := by
  have hoc : _get_consensus_result c1_openai = [("X", some (.vint 10))] := by decide
  have hac : _get_consensus_result c1_anthropic = [("X", some (.vint 12))] := by decide
  have hgc : _get_consensus_result ([] : List RawResult) = [] := by decide
  have hia : calculate_intra_model_consistency c1_anthropic = 1 := by decide
  have hig : calculate_intra_model_consistency [] = 1 := by decide
  simp only [c1_result, aggregate_final_result]
  rw [hoc, hac, hgc, c1_intra_openai, hia, hig]
  rw [show firstOccs (comparisonFields [("X", some (JVal.vint 10))]
      [("X", some (JVal.vint 12))] [] []) = ["X"] from by decide]
  simp only [List.map_cons, List.map_nil, aggregateField]
  rw [show compareField [("X", some (JVal.vint 10))] [("X", some (JVal.vint 12))] [] "X"
      = ⟨.vint 10, .vint 12, .vnull, false, 1, 2⟩ from by decide]
  dsimp only
  rw [show List.filter (fun v => v != JVal.vnull) [JVal.vint 10, JVal.vint 12, JVal.vnull]
      = [JVal.vint 10, JVal.vint 12] from by decide]
  rw [if_neg (by decide : ¬ ([JVal.vint 10, JVal.vint 12] = []))]
  rw [show mostCommon (List.map pyStr [JVal.vint 10, JVal.vint 12]) = ("10", 1) from by decide]
  dsimp only
  rw [pyRound3_eval _ 700 (by norm_num [CROSS_MODEL_WEIGHT, INTRA_MODEL_WEIGHT])
    (by norm_num [CROSS_MODEL_WEIGHT, INTRA_MODEL_WEIGHT])]
  norm_num

/-- Reported OpenAI consistency of the C1 scenario. -/
theorem c1_consistency_openai : c1_result.consistency_openai = 1 := by
  show pyRound 3 (calculate_intra_model_consistency c1_openai) = 1
  rw [c1_intra_openai, pyRound3_eval _ 1000 (by norm_num) (by norm_num)]
  norm_num

/-- C1: the claim predicts field confidence 1 x CROSS_MODEL_WEIGHT plus
avg_intra x INTRA_MODEL_WEIGHT (the average intra consistency is 1 here
since every provider group has consistency 1); the code computes agreement
1/2 on the 1-vs-1 representative tie, so the confidence is 0.7, not the
claimed 1x0.6 + 1x0.4 = 1. -/
theorem claim_C1_counterexample :
    c1_result.field_confidence = [("X", 7/10)] ∧
    c1_result.consistency_openai = 1 ∧
    (7/10 : ℚ) ≠ 1 * CROSS_MODEL_WEIGHT + 1 * INTRA_MODEL_WEIGHT :=
  ⟨c1_field_confidence, c1_consistency_openai,
   by norm_num [CROSS_MODEL_WEIGHT, INTRA_MODEL_WEIGHT]⟩

/-- C1 (amended): in the scenario (OpenAI twice 10, Anthropic once 12,
Google absent) the intra consistency of OpenAI is 1, the majority value for
X is 10 with the 1-vs-1 representative tie broken in favour of the
first-seen OpenAI representative, and the field confidence is
(1/2) x CROSS_MODEL_WEIGHT + 1 x INTRA_MODEL_WEIGHT = 0.7 with the
configured weights 0.6 and 0.4. -/
theorem claim_C1 :
    c1_result.consistency_openai = 1 ∧
    c1_result.final_data = [("X", some (.vobj (.vint 10) .vnull))] ∧
    c1_result.field_confidence = [("X", 7/10)] ∧
    (7/10 : ℚ) = (1/2) * CROSS_MODEL_WEIGHT + 1 * INTRA_MODEL_WEIGHT ∧
    CROSS_MODEL_WEIGHT = 6/10 ∧ INTRA_MODEL_WEIGHT = 4/10 :=
  ⟨c1_consistency_openai, by decide, c1_field_confidence,
   by norm_num [CROSS_MODEL_WEIGHT, INTRA_MODEL_WEIGHT],
   by norm_num [CROSS_MODEL_WEIGHT], by norm_num [INTRA_MODEL_WEIGHT]⟩

/-! ### C3: staged evaluation of the three-field scenario -/

theorem c3_perField :
    (firstOccs (comparisonFields [("A", some (JVal.vint 1))] [] [] ["A", "B", "C"])).map
      (fun f => (f, aggregateField [("A", some (JVal.vint 1))] [] [] ((1 + 1 + 1)/3) f))
    = [("A", (some (.vobj (.vint 1) .vnull), 1)), ("B", (none, 0)), ("C", (none, 0))] := by
  rw [show firstOccs (comparisonFields [("A", some (JVal.vint 1))] [] [] ["A", "B", "C"])
      = ["A", "B", "C"] from by decide]
  simp only [List.map_cons, List.map_nil, aggregateField]
  rw [show compareField [("A", some (JVal.vint 1))] [] [] "A"
      = ⟨.vint 1, .vnull, .vnull, true, 1, 1⟩ from by decide]
  rw [show compareField [("A", some (JVal.vint 1))] [] [] "B"
      = ⟨.vnull, .vnull, .vnull, false, 0, 0⟩ from by decide]
  rw [show compareField [("A", some (JVal.vint 1))] [] [] "C"
      = ⟨.vnull, .vnull, .vnull, false, 0, 0⟩ from by decide]
  dsimp only
  rw [show List.filter (fun v => v != JVal.vnull) [JVal.vint 1, JVal.vnull, JVal.vnull]
      = [JVal.vint 1] from by decide]
  rw [show List.filter (fun v => v != JVal.vnull) [JVal.vnull, JVal.vnull, JVal.vnull]
      = [] from by decide]
  rw [if_neg (by decide : ¬ ([JVal.vint 1] = []))]
  rw [if_pos rfl]
  rw [show mostCommon (List.map pyStr [JVal.vint 1]) = ("1", 1) from by decide]
  dsimp only
  rw [show finalObjFor [("A", some (JVal.vint 1))] [] [] "A" "1"
      = .vobj (.vint 1) .vnull from by decide]
  rw [pyRound3_eval _ 1000 (by norm_num [CROSS_MODEL_WEIGHT, INTRA_MODEL_WEIGHT])
    (by norm_num [CROSS_MODEL_WEIGHT, INTRA_MODEL_WEIGHT])]
  norm_num

theorem c3_field_confidence :
    c3_result.field_confidence = [("A", 1), ("B", 0), ("C", 0)] := by
  have hoc : _get_consensus_result c3_openai = [("A", some (.vint 1))] := by decide
  have hgc : _get_consensus_result ([] : List RawResult) = [] := by decide
  have hi1 : calculate_intra_model_consistency c3_openai = 1 := by decide
  have hig : calculate_intra_model_consistency [] = 1 := by decide
  simp only [c3_result, aggregate_final_result]
  rw [hoc, hgc, hi1, hig, c3_perField]
  norm_num

theorem c3_overall : c3_result.overall_confidence = 333/1000 := by
  have hoc : _get_consensus_result c3_openai = [("A", some (.vint 1))] := by decide
  have hgc : _get_consensus_result ([] : List RawResult) = [] := by decide
  have hi1 : calculate_intra_model_consistency c3_openai = 1 := by decide
  have hig : calculate_intra_model_consistency [] = 1 := by decide
  simp only [c3_result, aggregate_final_result]
  rw [hoc, hgc, hi1, hig, c3_perField]
  dsimp only [List.map_cons, List.map_nil]
  rw [if_neg (by norm_num)]
  rw [pyRound3_eval _ 333 (by norm_num) (by norm_num)]
  norm_num

/-- C3: the claim that the overall confidence equals the arithmetic mean of
the per-field confidences fails on rounding: with per-field confidences
1, 0, 0 the mean is 1/3 but the reported overall confidence is 0.333. -/
theorem claim_C3_counterexample :
    c3_result.field_confidence = [("A", 1), ("B", 0), ("C", 0)] ∧
    ((c3_result.field_confidence.map (fun p => p.2)).sum
      / (c3_result.field_confidence.length : ℚ)) = 1/3 ∧
    c3_result.overall_confidence = 333/1000 ∧
    (333/1000 : ℚ) ≠ 1/3 := by
  refine ⟨c3_field_confidence, ?_, c3_overall, by norm_num⟩
  rw [c3_field_confidence]
  norm_num

/-! ### Bound lemmas for the confidence arithmetic -/

theorem mostCommon_le (l : List String) : (mostCommon l).2 ≤ l.length := by
  have aux : ∀ (xs : List String) (b : String × Nat), b.2 ≤ l.length →
      ((xs.foldl (fun best s => if l.count s > best.2 then (s, l.count s) else best) b)).2
        ≤ l.length := by
    intro xs
    induction xs with
    | nil => intro b hb; exact hb
    | cons x xs ih =>
      intro b hb
      rw [List.foldl_cons]
      by_cases h : l.count x > b.2
      · rw [if_pos h]
        exact ih _ (List.count_le_length x l)
      · rw [if_neg h]
        exact ih _ hb
  exact aux _ _ (Nat.zero_le _)

theorem list_avg_nonneg (l : List ℚ) (h : ∀ x ∈ l, 0 ≤ x) :
    0 ≤ l.sum / (l.length : ℚ) :=
  div_nonneg (List.sum_nonneg h) (by positivity)

theorem list_avg_le_one (l : List ℚ) (h : ∀ x ∈ l, x ≤ 1) :
    l.sum / (l.length : ℚ) ≤ 1 := by
  rcases eq_or_ne l [] with rfl | hne
  · simp
  · rw [div_le_one (by exact_mod_cast List.length_pos.2 hne)]
    calc l.sum ≤ l.length • (1 : ℚ) := List.sum_le_card_nsmul l 1 h
    _ = (l.length : ℚ) := by simp

theorem roundHalfEven_nonneg (q : ℚ) (h : 0 ≤ q) : 0 ≤ roundHalfEven q := by
  rw [roundHalfEven, ratFloor_eq]
  have h0 : (0:ℤ) ≤ ⌊q⌋ := Int.floor_nonneg.2 h
  split_ifs <;> omega

theorem roundHalfEven_le (q : ℚ) (n : ℤ) (h : q ≤ (n : ℚ)) : roundHalfEven q ≤ n := by
  rw [roundHalfEven, ratFloor_eq]
  have hf : ⌊q⌋ ≤ n := by
    have := Int.floor_le_floor h
    rwa [Int.floor_intCast] at this
  by_cases h1 : q - ⌊q⌋ < 1/2
  · rw [if_pos h1]
    exact hf
  · rw [if_neg h1]
    have hfl : (⌊q⌋ : ℚ) ≤ q := Int.floor_le q
    have hq : (⌊q⌋ : ℚ) + 1/2 ≤ q := by
      push_neg at h1
      linarith
    have hlt : (⌊q⌋ : ℚ) < (n : ℚ) := by linarith
    have hlt2 : ⌊q⌋ < n := by exact_mod_cast hlt
    split_ifs <;> omega

theorem pyRound_nonneg (n : ℕ) (q : ℚ) (h : 0 ≤ q) : 0 ≤ pyRound n q := by
  rw [pyRound]
  apply div_nonneg _ (by positivity)
  exact_mod_cast roundHalfEven_nonneg _ (by positivity)

theorem pyRound_le_one (n : ℕ) (q : ℚ) (h : q ≤ 1) : pyRound n q ≤ 1 := by
  rw [pyRound]
  rw [div_le_one (by positivity)]
  have h2 : q * 10 ^ n ≤ ((10 ^ n : ℤ) : ℚ) := by
    push_cast
    calc q * 10 ^ n ≤ 1 * 10 ^ n := by
          apply mul_le_mul_of_nonneg_right h (by positivity)
    _ = 10 ^ n := one_mul _
  have := roundHalfEven_le (q * 10 ^ n) (10 ^ n) h2
  exact_mod_cast this

theorem intra_nonneg (results : List RawResult) :
    0 ≤ calculate_intra_model_consistency results := by
  unfold calculate_intra_model_consistency
  split
  · norm_num
  · split
    · norm_num
    · split
      · norm_num
      · lift_lets
        intro fields field_scores
        split
        · norm_num
        · apply list_avg_nonneg
          intro x hx
          rcases List.mem_filterMap.1 hx with ⟨f, _, hf⟩
          dsimp only at hf
          split at hf
          · simp at hf
          · rw [Option.some.injEq] at hf
            rw [← hf]
            positivity

theorem ratio_le_one (V : List JVal) (h : ¬ (V = [])) :
    ((mostCommon (V.map pyStr)).2 : ℚ) / (V.length : ℚ) ≤ 1 := by
  have hpos : 0 < V.length := List.length_pos.2 h
  rw [div_le_one (by exact_mod_cast hpos)]
  have hmc := mostCommon_le (V.map pyStr)
  rw [List.length_map] at hmc
  exact_mod_cast hmc

theorem intra_le_one (results : List RawResult) :
    calculate_intra_model_consistency results ≤ 1 := by
  unfold calculate_intra_model_consistency
  split
  · norm_num
  · split
    · norm_num
    · split
      · norm_num
      · lift_lets
        intro fields field_scores
        split
        · norm_num
        · apply list_avg_le_one
          intro x hx
          rcases List.mem_filterMap.1 hx with ⟨f, _, hf⟩
          dsimp only at hf
          split at hf
          · simp at hf
          · rename_i hvne
            rw [Option.some.injEq] at hf
            rw [← hf]
            exact ratio_le_one _ hvne

theorem aggregateField_snd_nonneg (oc ac gc : List (String × Option JVal)) (avg : ℚ)
    (f : String) (havg : 0 ≤ avg) : 0 ≤ (aggregateField oc ac gc avg f).2 := by
  unfold aggregateField
  dsimp only
  split
  · norm_num
  · apply pyRound_nonneg
    have hc : (0:ℚ) ≤ CROSS_MODEL_WEIGHT := by norm_num [CROSS_MODEL_WEIGHT]
    have hi : (0:ℚ) ≤ INTRA_MODEL_WEIGHT := by norm_num [INTRA_MODEL_WEIGHT]
    positivity

theorem aggregateField_snd_le_one (oc ac gc : List (String × Option JVal)) (avg : ℚ)
    (f : String) (havg0 : 0 ≤ avg) (havg1 : avg ≤ 1) :
    (aggregateField oc ac gc avg f).2 ≤ 1 := by
  unfold aggregateField
  dsimp only
  split
  · norm_num
  · rename_i hvne
    apply pyRound_le_one
    have hratio := ratio_le_one _ hvne
    have hrat0 : (0:ℚ) ≤ ((mostCommon (([(compareField oc ac gc f).openai,
        (compareField oc ac gc f).anthropic,
        (compareField oc ac gc f).google].filter (fun v => v != JVal.vnull)).map pyStr)).2 : ℚ)
        / (([(compareField oc ac gc f).openai, (compareField oc ac gc f).anthropic,
        (compareField oc ac gc f).google].filter (fun v => v != JVal.vnull)).length : ℚ) := by
      positivity
    rw [show CROSS_MODEL_WEIGHT = 6/10 from by norm_num [CROSS_MODEL_WEIGHT],
      show INTRA_MODEL_WEIGHT = 4/10 from by norm_num [INTRA_MODEL_WEIGHT]]
    linarith

theorem aggregateField_fst_none (oc ac gc : List (String × Option JVal)) (avg : ℚ)
    (f : String) (h : (aggregateField oc ac gc avg f).1 = none) :
    (aggregateField oc ac gc avg f).2 = 0 := by
  unfold aggregateField at h ⊢
  dsimp only at h ⊢
  split at h
  · rename_i hv
    rw [if_pos hv]
  · simp at h

/-- C3 (amended): per-field and overall confidences stay in the unit
interval; the overall confidence equals the arithmetic mean of the stored
per-field confidences rounded to three decimals (the claim as stated,
without the rounding, fails); and a field whose final value is the Python
None has confidence exactly 0. -/
theorem claim_C3 (o a g : List RawResult) (fo : List String) :
    (∀ i : Nat,
      0 ≤ ((aggregate_final_result o a g fo).field_confidence.getD i ("", 0)).2 ∧
      ((aggregate_final_result o a g fo).field_confidence.getD i ("", 0)).2 ≤ 1)
  ∧ 0 ≤ (aggregate_final_result o a g fo).overall_confidence
  ∧ (aggregate_final_result o a g fo).overall_confidence ≤ 1
  ∧ (aggregate_final_result o a g fo).overall_confidence
      = pyRound 3 ((((aggregate_final_result o a g fo).field_confidence.map
          (fun p => p.2)).sum)
          / ((aggregate_final_result o a g fo).field_confidence.length : ℚ))
  ∧ (∀ (i : Nat) (f : String),
      (aggregate_final_result o a g fo).final_data.get? i = some (f, none) →
      (aggregate_final_result o a g fo).field_confidence.get? i = some (f, 0)) := by
  have havg0 : 0 ≤ (calculate_intra_model_consistency o
      + calculate_intra_model_consistency a + calculate_intra_model_consistency g) / 3 := by
    have h1 := intra_nonneg o
    have h2 := intra_nonneg a
    have h3 := intra_nonneg g
    linarith
  have havg1 : (calculate_intra_model_consistency o
      + calculate_intra_model_consistency a + calculate_intra_model_consistency g) / 3 ≤ 1 := by
    have h1 := intra_le_one o
    have h2 := intra_le_one a
    have h3 := intra_le_one g
    linarith
  have hconf : ∀ x ∈ (aggregate_final_result o a g fo).field_confidence.map
      (fun p => p.2), 0 ≤ x ∧ x ≤ 1 := by
    intro x hx
    rcases List.mem_map.1 hx with ⟨p, hp, rfl⟩
    simp only [aggregate_final_result, List.map_map] at hp
    rcases List.mem_map.1 hp with ⟨f, _, rfl⟩
    exact ⟨aggregateField_snd_nonneg _ _ _ _ _ havg0,
      aggregateField_snd_le_one _ _ _ _ _ havg0 havg1⟩
  have hmean : (aggregate_final_result o a g fo).overall_confidence
      = pyRound 3 ((((aggregate_final_result o a g fo).field_confidence.map
          (fun p => p.2)).sum)
          / ((aggregate_final_result o a g fo).field_confidence.length : ℚ)) := by
    simp only [aggregate_final_result]
    split
    · rename_i h0
      rw [List.length_eq_zero] at h0
      rw [h0]
      norm_num
    · rfl
  refine ⟨?_, ?_, ?_, hmean, ?_⟩
  · intro i
    rw [List.getD_eq_getElem?_getD]
    cases hx : (aggregate_final_result o a g fo).field_confidence[i]? with
    | none => simp
    | some p =>
      have hp : p ∈ (aggregate_final_result o a g fo).field_confidence := by
        rw [← List.get?_eq_getElem?] at hx
        exact List.get?_mem hx
      have := hconf p.2 (List.mem_map_of_mem (fun p => p.2) hp)
      simpa using this
  · rw [hmean]
    apply pyRound_nonneg
    rw [show ((aggregate_final_result o a g fo).field_confidence.length : ℚ)
        = (((aggregate_final_result o a g fo).field_confidence.map (fun p => p.2)).length : ℚ) by
      rw [List.length_map]]
    apply list_avg_nonneg
    intro x hx
    exact (hconf x hx).1
  · rw [hmean]
    apply pyRound_le_one
    rw [show ((aggregate_final_result o a g fo).field_confidence.length : ℚ)
        = (((aggregate_final_result o a g fo).field_confidence.map (fun p => p.2)).length : ℚ) by
      rw [List.length_map]]
    apply list_avg_le_one
    intro x hx
    exact (hconf x hx).2
  · intro i f hi
    simp only [aggregate_final_result, List.map_map] at hi ⊢
    rw [List.get?_eq_getElem?, List.getElem?_map] at hi ⊢
    cases hx : (firstOccs (comparisonFields (_get_consensus_result o)
        (_get_consensus_result a) (_get_consensus_result g) fo))[i]? with
    | none => rw [hx] at hi; simp at hi
    | some fld =>
      rw [hx] at hi
      simp only [Option.map_some', Function.comp_apply, Option.some.injEq, Prod.mk.injEq] at hi ⊢
      refine ⟨hi.1, ?_⟩
      exact aggregateField_fst_none _ _ _ _ _ hi.2

/-- C3 witness: bounds at the first field of the three-field scenario and
the zero confidence of field B, whose final value is None there. -/
theorem claim_C3_witness :
    (0 ≤ ((aggregate_final_result c3_openai [] [] ["A", "B", "C"]).field_confidence.getD
        0 ("", 0)).2 ∧
      ((aggregate_final_result c3_openai [] [] ["A", "B", "C"]).field_confidence.getD
        0 ("", 0)).2 ≤ 1)
  ∧ (aggregate_final_result c3_openai [] [] ["A", "B", "C"]).field_confidence.get? 1
      = some ("B", 0) :=
  ⟨(claim_C3 c3_openai [] [] ["A", "B", "C"]).1 0,
   (claim_C3 c3_openai [] [] ["A", "B", "C"]).2.2.2.2 1 "B" (by decide)⟩

/-! ### C8: the final value choice -/

theorem head_filter_eq_find (p : JVal → Bool) (l : List JVal) :
    (l.filter p).head? = l.find? p := by
  induction l with
  | nil => rfl
  | cons x xs ih =>
    by_cases h : p x
    · simp [List.filter_cons, List.find?, h]
    · simp [List.filter_cons, List.find?, h, ih]

theorem candidateFrom_eq (c : List (String × Option JVal)) (field mc : String) :
    candidateFrom c field mc
      = (repOf c field).filter (fun o => pyTruthy o && (pyStr (unwrapValue o) == mc)) := by
  unfold candidateFrom repOf
  cases List.lookup field c with
  | none => rfl
  | some e =>
    cases e with
    | none => rfl
    | some obj =>
      by_cases h1 : pyTruthy obj
      · by_cases h2 : pyStr (unwrapValue obj) = mc
        · simp [List.filter_cons, h1, h2]
        · simp [List.filter_cons, h1, h2]
      · simp [List.filter_cons, h1]

theorem providerReps_eq (oc ac gc : List (String × Option JVal)) (field : String) :
    providerReps oc ac gc field = repOf oc field ++ repOf ac field ++ repOf gc field := by
  unfold providerReps repOf
  cases List.lookup field oc with
  | none =>
    cases List.lookup field ac with
    | none =>
      cases List.lookup field gc with
      | none => rfl
      | some e3 => cases e3 <;> rfl
    | some e2 =>
      cases e2 <;> cases List.lookup field gc with
      | none => rfl
      | some e3 => cases e3 <;> rfl
  | some e1 =>
    cases e1 <;> cases List.lookup field ac with
    | none =>
      cases List.lookup field gc with
      | none => rfl
      | some e3 => cases e3 <;> rfl
    | some e2 =>
      cases e2 <;> cases List.lookup field gc with
      | none => rfl
      | some e3 => cases e3 <;> rfl

/-- C8: as stated the claim fails; the code skips falsy representatives.
Here OpenAI stores the bare scalar 0 for X, so a representative exists and
matches the majority string "0", yet the final value is the null pair,
not the wrapped representative. -/
theorem claim_C8_counterexample :
    consensusValue (_get_consensus_result c8_openai) "X" = .vint 0 ∧
    c8_result.final_data = [("X", some (.vobj .vnull .vnull))] ∧
    (JVal.vobj .vnull .vnull) ≠ normalizeFinal (.vint 0) := by
  refine ⟨by decide, by decide, by decide⟩

/-- C8 (amended): for every field the chosen final value is the first truthy
representative (in the fixed provider order OpenAI, Anthropic, Google) whose
stringified value equals the majority string, normalised so that a dict
representative passes through unchanged (its source key may be absent) and a
bare scalar is wrapped with a null source; when no truthy representative
matches, the value-null source-null pair is stored.  Every non-null entry of
final_data is such a choice. -/
theorem claim_C8 :
    (∀ (oc ac gc : List (String × Option JVal)) (field mc : String),
      finalObjFor oc ac gc field mc = specChosen (providerReps oc ac gc field) mc)
  ∧ (∀ (o a g : List RawResult) (fo : List String) (p : String × Option JVal),
      p ∈ (aggregate_final_result o a g fo).final_data →
      p.2 = none ∨ ∃ mc, p.2 = some (finalObjFor (_get_consensus_result o)
        (_get_consensus_result a) (_get_consensus_result g) p.1 mc)) := by
  constructor
  · intro oc ac gc field mc
    rw [specChosen.eq_def, providerReps_eq, ← head_filter_eq_find]
    rw [finalObjFor.eq_def, candidateFrom_eq, candidateFrom_eq, candidateFrom_eq]
    rw [← List.filter_append, ← List.filter_append]
    cases ((repOf oc field ++ repOf ac field ++ repOf gc field).filter
        (fun o => pyTruthy o && (pyStr (unwrapValue o) == mc))) with
    | nil => rfl
    | cons c rest =>
      cases c <;> rfl
  · intro o a g fo p hp
    simp only [aggregate_final_result, List.map_map] at hp
    rcases List.mem_map.1 hp with ⟨f, _, rfl⟩
    simp only [Function.comp_apply]
    rw [aggregateField.eq_def]
    dsimp only
    split
    · exact Or.inl rfl
    · exact Or.inr ⟨_, rfl⟩

/-- C8 witness: the refinement applied at a concrete field, and the
aggregate entry of the falsy-representative scenario. -/
theorem claim_C8_witness :
    finalObjFor [("X", some (.vint 5))] [] [] "X" "5"
      = specChosen (providerReps [("X", some (.vint 5))] [] [] "X") "5"
  ∧ (some (JVal.vobj .vnull .vnull) = none ∨ ∃ mc,
      (some (JVal.vobj .vnull .vnull) : Option JVal)
        = some (finalObjFor (_get_consensus_result c8_openai)
            (_get_consensus_result []) (_get_consensus_result []) "X" mc)) :=
  ⟨claim_C8.1 [("X", some (.vint 5))] [] [] "X" "5",
   claim_C8.2 c8_openai [] [] [] ("X", some (.vobj .vnull .vnull)) (by decide)⟩

/-! ### C6: decoder failure reporting -/

set_option maxRecDepth 100000 in
/-- C6: the claim that the raised InvalidResponseError carries the first 500
characters of the input fails: on this unparseable input the whole input (9
characters, hence its own first 500 characters) appears in the log line but
not in the raised error message. -/
theorem claim_C6_counterexample :
    (parse_json_response "OpenAI" c6_input).isOk = false ∧
    ¬ (c6_input.data <:+: (decodeErrMsg (parse_json_response "OpenAI" c6_input)).data) ∧
    (c6_input.data <:+: (decodeLogMsg (parse_json_response "OpenAI" c6_input)).data) := by
  refine ⟨by decide, by decide, by decide⟩

/-- C6 (amended): when every repair transform has been applied and the parse
still fails, the decoder raises an InvalidResponseError whose message
reports the attempt count and the last parse error, while the first 500
characters of the input are written to the error log for diagnostics. -/
theorem claim_C6 (provider : String) (s : String) (f : DecodeFailure)
    (h : parse_json_response provider s = .error f) :
    (s.data.take 500 <:+: f.logMessage.data)
  ∧ ∃ e : String,
      f.errorMessage = "응답을 JSON으로 파싱할 수 없습니다 (자동 복구 7단계 시도 실패): " ++ e
    ∧ f.logMessage = "[" ++ provider ++ "] JSON 파싱 최종 실패: " ++ e
        ++ "\n응답 일부: " ++ String.mk (s.data.take 500) ++ "..." := by
  simp only [parse_json_response] at h
  split at h
  · simp at h
  · split at h
    · simp at h
    · split at h
      · simp at h
      · split at h
        · simp at h
        · split at h
          · simp at h
          · split at h
            · simp at h
            · split at h
              · simp at h
              · rw [Except.error.injEq] at h
                subst h
                rename_i x7 e7 h7
                refine ⟨?_, pyJsonErrorStr
                  (t6 (t5 (t4b (t4a (t3 (t2 (extractBraces (pyStrip s.data)))))))) e7,
                  rfl, rfl⟩
                refine ⟨("[" ++ provider ++ "] JSON 파싱 최종 실패: "
                  ++ pyJsonErrorStr
                    (t6 (t5 (t4b (t4a (t3 (t2 (extractBraces (pyStrip s.data)))))))) e7
                  ++ "\n응답 일부: ").data, "...".data, ?_⟩
                simp [String.data_append]

/-- C6 witness at the concrete unparseable input. -/
theorem claim_C6_witness :
    (c6_input.data.take 500 <:+:
      (exceptErrorD (parse_json_response "OpenAI" c6_input) ⟨"", ""⟩).logMessage.data)
  ∧ ∃ e : String,
      (exceptErrorD (parse_json_response "OpenAI" c6_input) ⟨"", ""⟩).errorMessage
        = "응답을 JSON으로 파싱할 수 없습니다 (자동 복구 7단계 시도 실패): " ++ e
    ∧ (exceptErrorD (parse_json_response "OpenAI" c6_input) ⟨"", ""⟩).logMessage
        = "[" ++ "OpenAI" ++ "] JSON 파싱 최종 실패: " ++ e
          ++ "\n응답 일부: " ++ String.mk (c6_input.data.take 500) ++ "..." :=
  claim_C6 "OpenAI" c6_input (exceptErrorD (parse_json_response "OpenAI" c6_input) ⟨"", ""⟩)
    (by rfl)

/-! ### Lemmas about the orchestrator fan-in -/

theorem fanInStep_errors (acc : FanAcc) (p : GatherOutcome × AgentInfo) :
    (fanInStep acc p).errors = acc.errors ++ (errorEntryOf p).toList := by
  cases hp : p.1 with
  | exn e => simp [fanInStep, errorEntryOf, hp]
  | res r =>
    by_cases hc : r.status = .cancelled
    · simp [fanInStep, errorEntryOf, hp, hc]
    · by_cases hf : r.status = .failed
      · simp [fanInStep, errorEntryOf, hp, hc, hf]
      · simp only [fanInStep, errorEntryOf, hp, if_neg hc, if_neg hf]
        split_ifs <;> simp

theorem foldl_fanIn_errors (ps : List (GatherOutcome × AgentInfo)) (acc : FanAcc) :
    (ps.foldl fanInStep acc).errors = acc.errors ++ ps.filterMap errorEntryOf := by
  induction ps generalizing acc with
  | nil => simp
  | cons p ps ih =>
    rw [List.foldl_cons, ih, fanInStep_errors, List.filterMap_cons]
    cases hp : errorEntryOf p <;> simp [List.append_assoc]

theorem fanInStep_bucketSum (acc : FanAcc) (p : GatherOutcome × AgentInfo)
    (h : p.2.provider = "OpenAI" ∨ p.2.provider = "Anthropic" ∨ p.2.provider = "Google") :
    bucketSum (fanInStep acc p) = bucketSum acc + 1 := by
  cases hp : p.1 with
  | exn e => simp [fanInStep, bucketSum, hp]; omega
  | res r =>
    by_cases hc : r.status = .cancelled
    · simp [fanInStep, bucketSum, hp, hc]; omega
    · by_cases hf : r.status = .failed
      · simp [fanInStep, bucketSum, hp, hc, hf]; omega
      · rcases h with h | h | h <;>
          simp [fanInStep, bucketSum, hp, hc, hf, h] <;> omega

theorem foldl_fanIn_bucketSum (ps : List (GatherOutcome × AgentInfo)) (acc : FanAcc)
    (h : ∀ p ∈ ps, p.2.provider = "OpenAI" ∨ p.2.provider = "Anthropic" ∨
      p.2.provider = "Google") :
    bucketSum (ps.foldl fanInStep acc) = bucketSum acc + ps.length := by
  induction ps generalizing acc with
  | nil => simp
  | cons p ps ih =>
    rw [List.foldl_cons, ih _ (fun q hq => h q (List.mem_cons_of_mem _ hq)),
      fanInStep_bucketSum acc p (h p (List.mem_cons_self _ _))]
    simp only [List.length_cons]
    omega

theorem buildAgentInfo_provider (keys : ApiKeys) (counts : AgentCounts) :
    ∀ i ∈ buildAgentInfo keys counts,
      i.provider = "OpenAI" ∨ i.provider = "Anthropic" ∨ i.provider = "Google" := by
  intro i hi
  unfold buildAgentInfo at hi
  rcases List.mem_append.1 hi with hi | hi
  · rcases List.mem_append.1 hi with hi | hi
    · split at hi
      · rcases List.mem_map.1 hi with ⟨j, _, rfl⟩
        exact Or.inl rfl
      · simp at hi
    · split at hi
      · rcases List.mem_map.1 hi with ⟨j, _, rfl⟩
        exact Or.inr (Or.inl rfl)
      · simp at hi
  · split at hi
    · rcases List.mem_map.1 hi with ⟨j, _, rfl⟩
      exact Or.inr (Or.inr rfl)
    · simp at hi

/-- C4: no per-agent failure crosses the fan-in as an exception: the errors
of the execution report are exactly the entries contributed by exception and
failed outcomes, every exception or failed outcome contributes an entry, and
every non-success supervisor outcome carries an empty data mapping; the run
always returns the per-provider lists and the report (run_all_agents is a
total function into that structure). -/
theorem claim_C4 :
    (∀ (keys : ApiKeys) (agent_counts : Option AgentCounts) (outcomes : List GatherOutcome),
      (run_all_agents keys agent_counts outcomes).execution_info.errors
        = (outcomes.zip (buildAgentInfo keys (agent_counts.getD ⟨3, 3, 3⟩))).filterMap
            errorEntryOf)
  ∧ (∀ p : GatherOutcome × AgentInfo,
      (match p.1 with
        | .exn _ => True
        | .res r => r.status = .failed) → (errorEntryOf p).isSome = true)
  ∧ (∀ (provider : String) (agent_id : Nat) (env : RunEnv),
      (_run_single_agent provider agent_id env).status ≠ .success →
        (_run_single_agent provider agent_id env).data = []) := by
  refine ⟨?_, ?_, ?_⟩
  · intro keys agent_counts outcomes
    show ((outcomes.zip _).foldl fanInStep ⟨[], [], [], [], 0⟩).errors = _
    rw [foldl_fanIn_errors]
    rfl
  · intro p hp
    cases h : p.1 with
    | exn e => simp [errorEntryOf, h]
    | res r =>
      rw [h] at hp
      simp [errorEntryOf, h, hp]
  · intro provider agent_id env
    simp only [_run_single_agent]
    split_ifs with h1 h2
    · intro _; rfl
    · intro _; rfl
    · cases hph : env.phase <;> simp [hph]

/-- C4 witness at concrete inputs. -/
theorem claim_C4_witness :
    ((run_all_agents ⟨some "k", none, none⟩ none [.exn ⟨.other, "boom"⟩]).execution_info.errors
      = ([(GatherOutcome.exn ⟨.other, "boom"⟩)].zip
          (buildAgentInfo ⟨some "k", none, none⟩ ⟨3, 3, 3⟩)).filterMap errorEntryOf)
  ∧ (errorEntryOf (.exn ⟨.other, "boom"⟩, ⟨"OpenAI", 1⟩)).isSome = true
  ∧ (_run_single_agent "OpenAI" 1 ⟨[], false, .raises ⟨.other, "x"⟩ 2⟩).data = [] :=
  ⟨claim_C4.1 ⟨some "k", none, none⟩ none [.exn ⟨.other, "boom"⟩],
   claim_C4.2.1 (.exn ⟨.other, "boom"⟩, ⟨"OpenAI", 1⟩) trivial,
   claim_C4.2.2 "OpenAI" 1 ⟨[], false, .raises ⟨.other, "x"⟩ 2⟩ (by decide)⟩

/-- C9: the execution report counts are consistent: successes, failures and
cancellations partition the launched tasks, and the successful count is the
sum of the three per-provider counts. -/
theorem claim_C9 (keys : ApiKeys) (agent_counts : Option AgentCounts)
    (outcomes : List GatherOutcome)
    (h : outcomes.length = (buildAgentInfo keys (agent_counts.getD ⟨3, 3, 3⟩)).length) :
    (run_all_agents keys agent_counts outcomes).execution_info.successful_agents
        + (run_all_agents keys agent_counts outcomes).execution_info.failed_agents
        + (run_all_agents keys agent_counts outcomes).execution_info.cancelled_agents
      = (run_all_agents keys agent_counts outcomes).execution_info.total_agents
  ∧ (run_all_agents keys agent_counts outcomes).execution_info.successful_agents
      = (run_all_agents keys agent_counts outcomes).execution_info.openai_count
        + (run_all_agents keys agent_counts outcomes).execution_info.anthropic_count
        + (run_all_agents keys agent_counts outcomes).execution_info.google_count := by
  constructor
  · have hz : ∀ p ∈ outcomes.zip (buildAgentInfo keys (agent_counts.getD ⟨3, 3, 3⟩)),
        p.2.provider = "OpenAI" ∨ p.2.provider = "Anthropic" ∨ p.2.provider = "Google" := by
      intro p hp
      exact buildAgentInfo_provider _ _ p.2 (List.of_mem_zip hp).2
    have hb := foldl_fanIn_bucketSum
      (outcomes.zip (buildAgentInfo keys (agent_counts.getD ⟨3, 3, 3⟩)))
      ⟨[], [], [], [], 0⟩ hz
    have hlen : (outcomes.zip (buildAgentInfo keys (agent_counts.getD ⟨3, 3, 3⟩))).length
        = (buildAgentInfo keys (agent_counts.getD ⟨3, 3, 3⟩)).length := by
      rw [List.length_zip, h, Nat.min_self]
    rw [hlen] at hb
    simp only [bucketSum] at hb
    simp only [run_all_agents]
    simpa using hb
  · rfl

/-- C9 witness at a concrete run with one success, one failure and one
cancellation among three OpenAI agents. -/
theorem claim_C9_witness :
    (run_all_agents ⟨some "k", none, none⟩ (some ⟨3, 0, 0⟩)
        [.res ⟨"OpenAI", 1, [], 1, .success, none⟩,
         .res ⟨"OpenAI", 2, [], 1, .failed, some "e"⟩,
         .res ⟨"OpenAI", 3, [], 0, .cancelled, none⟩]).execution_info.successful_agents
      + (run_all_agents ⟨some "k", none, none⟩ (some ⟨3, 0, 0⟩)
        [.res ⟨"OpenAI", 1, [], 1, .success, none⟩,
         .res ⟨"OpenAI", 2, [], 1, .failed, some "e"⟩,
         .res ⟨"OpenAI", 3, [], 0, .cancelled, none⟩]).execution_info.failed_agents
      + (run_all_agents ⟨some "k", none, none⟩ (some ⟨3, 0, 0⟩)
        [.res ⟨"OpenAI", 1, [], 1, .success, none⟩,
         .res ⟨"OpenAI", 2, [], 1, .failed, some "e"⟩,
         .res ⟨"OpenAI", 3, [], 0, .cancelled, none⟩]).execution_info.cancelled_agents
      = (run_all_agents ⟨some "k", none, none⟩ (some ⟨3, 0, 0⟩)
        [.res ⟨"OpenAI", 1, [], 1, .success, none⟩,
         .res ⟨"OpenAI", 2, [], 1, .failed, some "e"⟩,
         .res ⟨"OpenAI", 3, [], 0, .cancelled, none⟩]).execution_info.total_agents
  ∧ (run_all_agents ⟨some "k", none, none⟩ (some ⟨3, 0, 0⟩)
        [.res ⟨"OpenAI", 1, [], 1, .success, none⟩,
         .res ⟨"OpenAI", 2, [], 1, .failed, some "e"⟩,
         .res ⟨"OpenAI", 3, [], 0, .cancelled, none⟩]).execution_info.successful_agents
      = (run_all_agents ⟨some "k", none, none⟩ (some ⟨3, 0, 0⟩)
        [.res ⟨"OpenAI", 1, [], 1, .success, none⟩,
         .res ⟨"OpenAI", 2, [], 1, .failed, some "e"⟩,
         .res ⟨"OpenAI", 3, [], 0, .cancelled, none⟩]).execution_info.openai_count
        + (run_all_agents ⟨some "k", none, none⟩ (some ⟨3, 0, 0⟩)
        [.res ⟨"OpenAI", 1, [], 1, .success, none⟩,
         .res ⟨"OpenAI", 2, [], 1, .failed, some "e"⟩,
         .res ⟨"OpenAI", 3, [], 0, .cancelled, none⟩]).execution_info.anthropic_count
        + (run_all_agents ⟨some "k", none, none⟩ (some ⟨3, 0, 0⟩)
        [.res ⟨"OpenAI", 1, [], 1, .success, none⟩,
         .res ⟨"OpenAI", 2, [], 1, .failed, some "e"⟩,
         .res ⟨"OpenAI", 3, [], 0, .cancelled, none⟩]).execution_info.google_count :=
  claim_C9 ⟨some "k", none, none⟩ (some ⟨3, 0, 0⟩)
    [.res ⟨"OpenAI", 1, [], 1, .success, none⟩,
     .res ⟨"OpenAI", 2, [], 1, .failed, some "e"⟩,
     .res ⟨"OpenAI", 3, [], 0, .cancelled, none⟩] (by decide)

/-- C5: an agent whose key is in the cancellation list at the pre-start
check returns a cancelled outcome with empty data and execution time exactly
zero, whatever the provider, slot (hence stagger offset) and later
observations are. -/
theorem claim_C5 (provider : String) (agent_id : Nat) (env : RunEnv)
    (h : agentKey provider agent_id ∈ env.cancelled_agents) :
    _run_single_agent provider agent_id env =
      ⟨provider, agent_id, [], 0, .cancelled, none⟩ := by
  unfold _run_single_agent
  rw [if_pos h]

/-- C5 witness: a Google agent cancelled before start, with a completed
phase observation that is ignored. -/
theorem claim_C5_witness :
    _run_single_agent "Google" 2
        ⟨["Google-2"], false, .completes [("X", .vint 1)] 5⟩ =
      ⟨"Google", 2, [], 0, .cancelled, none⟩ :=
  claim_C5 "Google" 2 ⟨["Google-2"], false, .completes [("X", .vint 1)] 5⟩ (by decide)

theorem aggregateField_conf (oc ac gc : List (String × Option JVal)) (avg : ℚ)
    (f : String) :
    (aggregateField oc ac gc avg f).2
      = if validValues oc ac gc f = [] then 0
        else pyRound 3 (((mostCommon ((validValues oc ac gc f).map pyStr)).2 : ℚ)
            / ((validValues oc ac gc f).length : ℚ) * CROSS_MODEL_WEIGHT
          + avg * INTRA_MODEL_WEIGHT) := by
  simp only [aggregateField, validValues]
  split
  · rfl
  · rfl

/-- C10: a provider contributing fewer than two results (including none at
all) has intra-model consistency exactly 1; and in an aggregation with an
absent Google provider, every stored field confidence equals the agreement
ratio of that field weighted by CROSS_MODEL_WEIGHT plus the average of the
three consistencies divided by exactly 3 — the absent provider contributing
exactly 1 to the numerator — weighted by INTRA_MODEL_WEIGHT, rounded to
three decimals (0 when no provider contributes a value). -/
theorem claim_C10 :
    (∀ results : List RawResult, results.length < 2 →
      calculate_intra_model_consistency results = 1)
  ∧ (∀ (openai_results anthropic_results : List RawResult) (field_order : List String)
      (i : Nat) (fld : String),
      i < (aggregate_final_result openai_results anthropic_results [] field_order).field_confidence.length →
      (firstOccs (comparisonFields (_get_consensus_result openai_results)
        (_get_consensus_result anthropic_results) (_get_consensus_result [])
        field_order)).getD i "" = fld →
      ((aggregate_final_result openai_results anthropic_results [] field_order).field_confidence.getD
          i ("", 0)).2
        = if validValues (_get_consensus_result openai_results)
            (_get_consensus_result anthropic_results) (_get_consensus_result []) fld = []
          then 0
          else pyRound 3 (((mostCommon ((validValues (_get_consensus_result openai_results)
                (_get_consensus_result anthropic_results) (_get_consensus_result [])
                fld).map pyStr)).2 : ℚ)
              / ((validValues (_get_consensus_result openai_results)
                (_get_consensus_result anthropic_results) (_get_consensus_result [])
                fld).length : ℚ) * CROSS_MODEL_WEIGHT
            + (calculate_intra_model_consistency openai_results
                + calculate_intra_model_consistency anthropic_results + 1) / 3
              * INTRA_MODEL_WEIGHT)) := by
  have h1 : ∀ results : List RawResult, results.length < 2 →
      calculate_intra_model_consistency results = 1 := by
    intro results h
    unfold calculate_intra_model_consistency
    rw [if_pos h]
  refine ⟨h1, ?_⟩
  intro o a fo i fld hi hfld
  have hg : calculate_intra_model_consistency [] = 1 := h1 [] (by decide)
  simp only [aggregate_final_result, List.map_map] at hi ⊢
  rw [List.getD_eq_getElem?_getD, List.getElem?_map]
  simp only [List.length_map] at hi
  rw [List.getD_eq_getElem?_getD, List.getElem?_eq_getElem hi] at hfld
  simp only [Option.getD_some] at hfld
  rw [List.getElem?_eq_getElem hi]
  simp only [Option.map_some', Option.getD_some, Function.comp_apply]
  rw [hfld, hg, aggregateField_conf]

/-- C10 witness: the empty provider list has consistency 1, and the second
part applies at the field X of the C1 scenario aggregation with Google
absent. -/
theorem claim_C10_witness :
    calculate_intra_model_consistency [] = 1 ∧
    ((aggregate_final_result c1_openai c1_anthropic [] []).field_confidence.getD
        0 ("", 0)).2
      = if validValues (_get_consensus_result c1_openai)
          (_get_consensus_result c1_anthropic) (_get_consensus_result []) "X" = []
        then 0
        else pyRound 3 (((mostCommon ((validValues (_get_consensus_result c1_openai)
              (_get_consensus_result c1_anthropic) (_get_consensus_result [])
              "X").map pyStr)).2 : ℚ)
            / ((validValues (_get_consensus_result c1_openai)
              (_get_consensus_result c1_anthropic) (_get_consensus_result [])
              "X").length : ℚ) * CROSS_MODEL_WEIGHT
          + (calculate_intra_model_consistency c1_openai
              + calculate_intra_model_consistency c1_anthropic + 1) / 3
            * INTRA_MODEL_WEIGHT) :=
  ⟨claim_C10.1 [] (by decide),
   claim_C10.2 c1_openai c1_anthropic [] 0 "X" (by decide) (by decide)⟩

/-! ### C7: serializer and decoder round-trip -/

theorem digit_char_spec (d : Nat) (hd : d < 10) :
    isDigitC (Char.ofNat (48 + d)) = true ∧ digitVal (Char.ofNat (48 + d)) = d ∧
      ((Char.ofNat (48 + d) = '0') ↔ d = 0) := by
  interval_cases d <;> exact ⟨by decide, by decide, by decide⟩

theorem digit_not_special (c : Char) (h : isDigitC c = true) :
    isJsonWs c = false ∧ isPySpace c = false ∧ c ≠ ']' ∧ c ≠ '}' ∧ c ≠ '"' ∧
      c ≠ '{' ∧ c ≠ '[' ∧ c ≠ 't' ∧ c ≠ 'f' ∧ c ≠ 'n' ∧ c ≠ ':' ∧ c ≠ ',' ∧
      c ≠ '-' ∧ c ≠ '\\' := by
  have n1 : ¬ c = ' ' := by rintro rfl; exact absurd h (by decide)
  have n2 : ¬ c = '\t' := by rintro rfl; exact absurd h (by decide)
  have n3 : ¬ c = '\n' := by rintro rfl; exact absurd h (by decide)
  have n4 : ¬ c = '\r' := by rintro rfl; exact absurd h (by decide)
  have n5 : ¬ c = Char.ofNat 11 := by rintro rfl; exact absurd h (by decide)
  have n6 : ¬ c = Char.ofNat 12 := by rintro rfl; exact absurd h (by decide)
  refine ⟨by simp [isJsonWs, n1, n2, n3, n4], by simp [isPySpace, n1, n2, n3, n4, n5, n6],
    ?_, ?_, ?_, ?_, ?_, ?_, ?_, ?_, ?_, ?_, ?_, ?_⟩ <;>
    (rintro rfl; exact absurd h (by decide))

theorem foldDigits_append (xs ys : List Char) (k : Nat) :
    foldDigits (xs ++ ys) k = foldDigits ys (foldDigits xs k) := by
  simp [foldDigits, List.foldl_append]

theorem foldDigits_single (c : Char) (k : Nat) :
    foldDigits [c] k = k * 10 + digitVal c := by
  simp [foldDigits]

theorem natEncAux_spec : ∀ (fuel n : Nat) (acc : List Char), 0 < fuel → n < 10 ^ fuel →
    ∃ ds, natEncAux fuel n acc = ds ++ acc ∧ ds ≠ [] ∧ ds.all isDigitC = true ∧
      (∀ k, foldDigits ds k = k * 10 ^ ds.length + n) ∧
      (0 < n → ¬ ds.head? = some '0') ∧ (n = 0 → ds = ['0']) := by
  intro fuel
  induction fuel with
  | zero => intro n acc h; omega
  | succ f ih =>
    intro n acc _ hn
    by_cases hsm : n < 10
    · refine ⟨[Char.ofNat (48 + n)], by simp [natEncAux, hsm], by simp, ?_, ?_, ?_, ?_⟩
      · simpa using (digit_char_spec n hsm).1
      · intro k
        rw [foldDigits_single, (digit_char_spec n hsm).2.1]
        simp
      · intro hpos hc
        simp only [List.head?_cons, Option.some.injEq] at hc
        exact absurd ((digit_char_spec n hsm).2.2.mp hc) (by omega)
      · intro h0; subst h0; rfl
    · have hf : 0 < f := by
        by_contra hh
        have : f = 0 := by omega
        subst this
        simp at hn
        omega
      have hn' : n / 10 < 10 ^ f := by
        have : (10 : Nat) ^ (f + 1) = 10 ^ f * 10 := by ring
        omega
      obtain ⟨ds, hds, hne, hall, hfold, hh0, hz⟩ := ih (n / 10) (Char.ofNat (48 + n % 10) :: acc) hf hn'
      have hstep : natEncAux (f + 1) n acc = natEncAux f (n / 10) (Char.ofNat (48 + n % 10) :: acc) := by
        simp [natEncAux, hsm]
      refine ⟨ds ++ [Char.ofNat (48 + n % 10)], ?_, by simp, ?_, ?_, ?_, ?_⟩
      · rw [hstep, hds, List.append_assoc]
        simp
      · simp only [List.all_append, hall, Bool.true_and, List.all_cons, List.all_nil, Bool.and_true]
        exact (digit_char_spec (n % 10) (by omega)).1
      · intro k
        rw [foldDigits_append, foldDigits_single, hfold, (digit_char_spec (n % 10) (by omega)).2.1]
        have h1 : (k * 10 ^ ds.length + n / 10) * 10 + n % 10
            = k * (10 ^ ds.length * 10) + (n / 10 * 10 + n % 10) := by ring
        rw [h1]
        have h2 : n / 10 * 10 + n % 10 = n := by omega
        rw [h2, List.length_append, List.length_cons, List.length_nil, pow_succ]
      · intro _ hc
        rcases ds with _ | ⟨d, dt⟩
        · exact hne rfl
        · simp only [List.cons_append, List.head?_cons] at hc
          exact hh0 (by omega) hc
      · intro h0; omega

theorem natEnc_spec (n : Nat) :
    natEnc n ≠ [] ∧ (natEnc n).all isDigitC = true ∧ foldDigits (natEnc n) 0 = n ∧
      (0 < n → ¬ (natEnc n).head? = some '0') ∧ (n = 0 → natEnc n = ['0']) := by
  have hlt : n < 10 ^ (n + 1) := by
    calc n < 2 ^ n := Nat.lt_two_pow n
    _ ≤ 10 ^ n := Nat.pow_le_pow_left (by omega) n
    _ ≤ 10 ^ (n + 1) := Nat.pow_le_pow_right (by omega) (by omega)
  obtain ⟨ds, hds, hne, hall, hfold, hh0, hz⟩ := natEncAux_spec (n + 1) n [] (by omega) hlt
  have he : natEnc n = ds := by rw [natEnc, hds, List.append_nil]
  rw [he]
  refine ⟨hne, hall, ?_, hh0, hz⟩
  rw [hfold 0]
  simp

theorem takeWhile_append_of_all (p : Char → Bool) (xs ys : List Char)
    (hx : ∀ c ∈ xs, p c = true) (hy : ∀ c, ys.head? = some c → p c = false) :
    (xs ++ ys).takeWhile p = xs ∧ (xs ++ ys).dropWhile p = ys := by
  induction xs with
  | nil =>
    simp only [List.nil_append]
    cases ys with
    | nil => simp
    | cons c t =>
      have := hy c rfl
      simp [List.takeWhile_cons, List.dropWhile_cons, this]
  | cons x xt ih =>
    have hpx := hx x (by simp)
    have ih' := ih (fun c hc => hx c (by simp [hc]))
    simp [List.takeWhile_cons, List.dropWhile_cons, hpx, ih'.1, ih'.2]

theorem parseUIntTok_enc (n : Nat) (rest : List Char)
    (hrest : ∀ c, rest.head? = some c → isDigitC c = false) :
    parseUIntTok (natEnc n ++ rest) = .ok (n, rest) := by
  obtain ⟨hne, hall, hfold, hh0, hz⟩ := natEnc_spec n
  by_cases h0 : n = 0
  · subst h0
    rw [hz rfl]
    rfl
  · rcases he : natEnc n with _ | ⟨c, ct⟩
    · exact absurd he hne
    · have hcd : isDigitC c = true := by
        rw [he] at hall
        simp only [List.all_cons, Bool.and_eq_true] at hall
        exact hall.1
      have hc0 : ¬ c = '0' := by
        intro hc
        rw [he] at hh0
        exact hh0 (by omega) (by rw [hc]; rfl)
      have htd := takeWhile_append_of_all isDigitC (natEnc n) rest
        (fun d hd => by
          have := List.all_eq_true.mp hall
          exact this d hd) hrest
      rw [he] at htd
      rw [parseUIntTok.eq_def]
      split
      · next cs1 r1 heq =>
        rw [List.cons_append, List.cons.injEq] at heq
        exact absurd heq.1 hc0
      · next cs1 c1 r1 hx heq =>
        rw [List.cons_append, List.cons.injEq] at heq
        obtain ⟨hc1, hr1⟩ := heq
        subst hc1
        subst hr1
        rw [if_pos hcd, Except.ok.injEq, Prod.mk.injEq]
        rw [← List.cons_append, htd.1, htd.2]
        refine ⟨?_, rfl⟩
        rw [← he, hfold]
      · next cs1 heq =>
        rw [List.cons_append] at heq
        simp at heq

theorem restSafe_facts (rest : List Char) (h : restSafe rest = true) :
    floatFollows rest = false ∧ (∀ c, rest.head? = some c →
      isDigitC c = false ∧ isJsonWs c = false) := by
  rcases rest with _ | ⟨c, t⟩
  · exact ⟨rfl, by intro c hc; simp at hc⟩
  · simp only [restSafe, Bool.or_eq_true, decide_eq_true_eq] at h
    rcases h with (h | h) | h <;> subst h <;>
      exact ⟨rfl, by intro d hd; simp only [List.head?_cons, Option.some.injEq] at hd; subst hd; exact ⟨rfl, rfl⟩⟩

theorem intEnc_all (n : Int) :
    ∀ c ∈ intEnc n, isDigitC c = true ∨ c = '-' := by
  intro c hc
  obtain ⟨hne, hall, _, _, _⟩ := natEnc_spec n.natAbs
  rw [intEnc] at hc
  split at hc
  · rcases List.mem_cons.mp hc with h | h
    · exact Or.inr h
    · exact Or.inl (List.all_eq_true.mp hall c h)
  · exact Or.inl (List.all_eq_true.mp hall c hc)

theorem intEnc_head (n : Int) :
    ∃ d ds, intEnc n = d :: ds ∧ (isDigitC d = true ∨ d = '-') := by
  obtain ⟨hne, hall, _, _, _⟩ := natEnc_spec n.natAbs
  rcases he : natEnc n.natAbs with _ | ⟨c, ct⟩
  · exact absurd he hne
  · rw [intEnc]
    split
    · exact ⟨'-', natEnc n.natAbs, rfl, Or.inr rfl⟩
    · refine ⟨c, ct, he, Or.inl ?_⟩
      rw [he] at hall
      simp only [List.all_cons, Bool.and_eq_true] at hall
      exact hall.1

theorem parseIntTok_enc (n : Int) (rest : List Char) (hrest : restSafe rest = true) :
    parseIntTok (intEnc n ++ rest) = .ok (n, rest) := by
  obtain ⟨hff, hhd⟩ := restSafe_facts rest hrest
  have hdig : ∀ c, rest.head? = some c → isDigitC c = false := fun c hc => (hhd c hc).1
  by_cases hneg : n < 0
  · rw [intEnc, if_pos hneg, List.cons_append, parseIntTok]
    rw [parseUIntTok_enc n.natAbs rest hdig]
    simp only [hff, Bool.false_eq_true, if_false]
    rw [Except.ok.injEq, Prod.mk.injEq]
    exact ⟨by omega, rfl⟩
  · rw [intEnc, if_neg hneg]
    obtain ⟨hne, hall, _, _, _⟩ := natEnc_spec n.natAbs
    rcases he : natEnc n.natAbs with _ | ⟨c, ct⟩
    · exact absurd he hne
    · have hcd : isDigitC c = true := by
        rw [he] at hall
        simp only [List.all_cons, Bool.and_eq_true] at hall
        exact hall.1
      have hcm : ¬ c = '-' := (digit_not_special c hcd).2.2.2.2.2.2.2.2.2.2.2.2.1
      rw [parseIntTok.eq_def]
      simp only [he, List.cons_append]
      split
      · next heq =>
        rw [List.cons.injEq] at heq
        exact absurd heq.1 hcm
      · rw [← List.cons_append, ← he, parseUIntTok_enc n.natAbs rest hdig]
        simp only [hff, Bool.false_eq_true, if_false]
        rw [Except.ok.injEq, Prod.mk.injEq]
        exact ⟨by omega, rfl⟩


theorem hexVal_hexDigitChar (d : Nat) (hd : d < 16) : hexVal? (hexDigitChar d) = some d := by
  interval_cases d <;> decide

theorem parseHex4_enc (n : Nat) (hn : n < 65536) (rest : List Char) :
    parseHex4 (hexDigitChar (n / 4096 % 16) :: hexDigitChar (n / 256 % 16) ::
      hexDigitChar (n / 16 % 16) :: hexDigitChar (n % 16) :: rest) = some (n, rest) := by
  have h1 := hexVal_hexDigitChar (n / 4096 % 16) (by omega)
  have h2 := hexVal_hexDigitChar (n / 256 % 16) (by omega)
  have h3 := hexVal_hexDigitChar (n / 16 % 16) (by omega)
  have h4 := hexVal_hexDigitChar (n % 16) (by omega)
  have hX : n / 4096 % 16 * 4096 + n / 256 % 16 * 256 + n / 16 % 16 * 16 + n % 16 = n := by
    omega
  simp only [parseHex4, h1, h2, h3, h4, hX]

theorem char_valid_range (c : Char) :
    c.toNat < 55296 ∨ (57343 < c.toNat ∧ c.toNat < 1114112) := by
  have h := c.valid
  unfold UInt32.isValidChar Nat.isValidChar at h
  exact h

theorem psb_uesc (f m : Nat) (hm : m < 65536) (hs1 : ¬ (55296 ≤ m ∧ m < 56320))
    (hs2 : ¬ (56320 ≤ m ∧ m < 57344)) (tail acc : List Char) :
    parseStringBody (f + 1) (uEsc m ++ tail) acc
      = parseStringBody f tail (Char.ofNat m :: acc) := by
  have hb1 : (decide (55296 ≤ m) && decide (m < 56320)) = false := by
    simp only [Bool.and_eq_false_iff, decide_eq_false_iff_not]
    omega
  have hb2 : (decide (56320 ≤ m) && decide (m < 57344)) = false := by
    simp only [Bool.and_eq_false_iff, decide_eq_false_iff_not]
    omega
  rw [show uEsc m ++ tail = '\\' :: 'u' :: hexDigitChar (m / 4096 % 16) ::
    hexDigitChar (m / 256 % 16) :: hexDigitChar (m / 16 % 16) :: hexDigitChar (m % 16) ::
    tail from rfl]
  rw [parseStringBody]
  simp [parseHex4_enc m hm tail, hb1, hb2]

theorem psb_surr (f n : Nat) (hn1 : 65536 ≤ n) (hn2 : n < 1114112) (tail acc : List Char) :
    parseStringBody (f + 1)
      ((uEsc (55296 + (n - 65536) / 1024) ++ uEsc (56320 + (n - 65536) % 1024)) ++ tail) acc
      = parseStringBody f tail (Char.ofNat n :: acc) := by
  have hb1 : (decide (55296 ≤ 55296 + (n - 65536) / 1024) &&
      decide (55296 + (n - 65536) / 1024 < 56320)) = true := by
    simp only [Bool.and_eq_true, decide_eq_true_eq]
    omega
  have hb2 : (decide (56320 ≤ 56320 + (n - 65536) % 1024) &&
      decide (56320 + (n - 65536) % 1024 < 57344)) = true := by
    simp only [Bool.and_eq_true, decide_eq_true_eq]
    omega
  have hc : 65536 + (55296 + (n - 65536) / 1024 - 55296) * 1024 +
      (56320 + (n - 65536) % 1024 - 56320) = n := by
    omega
  rw [show (uEsc (55296 + (n - 65536) / 1024) ++ uEsc (56320 + (n - 65536) % 1024)) ++ tail
    = '\\' :: 'u' :: hexDigitChar ((55296 + (n - 65536) / 1024) / 4096 % 16) ::
      hexDigitChar ((55296 + (n - 65536) / 1024) / 256 % 16) ::
      hexDigitChar ((55296 + (n - 65536) / 1024) / 16 % 16) ::
      hexDigitChar ((55296 + (n - 65536) / 1024) % 16) ::
      ('\\' :: 'u' :: hexDigitChar ((56320 + (n - 65536) % 1024) / 4096 % 16) ::
      hexDigitChar ((56320 + (n - 65536) % 1024) / 256 % 16) ::
      hexDigitChar ((56320 + (n - 65536) % 1024) / 16 % 16) ::
      hexDigitChar ((56320 + (n - 65536) % 1024) % 16) :: tail) from by simp [uEsc]]
  rw [parseStringBody]
  simp [parseHex4_enc (55296 + (n - 65536) / 1024) (by omega),
    parseHex4_enc (56320 + (n - 65536) % 1024) (by omega), hb1, hb2]
  rw [if_pos (show 55296 + (n - 65536) / 1024 < 56320 from by omega),
    if_pos (show 56320 + (n - 65536) % 1024 < 57344 from by omega),
    show 65536 + (n - 65536) / 1024 * 1024 + (n - 65536) % 1024 = n from by omega]

set_option maxHeartbeats 2000000 in
theorem escChar_length_pos (c : Char) : 0 < (escChar c).length := by
  rw [escChar]
  split_ifs <;> simp [uEsc]

theorem escData_length (cs : List Char) : cs.length ≤ (escData cs).length := by
  induction cs with
  | nil => simp [escData]
  | cons c ct ih =>
    rw [show escData (c :: ct) = escChar c ++ escData ct from rfl]
    simp only [List.length_append, List.length_cons]
    have := escChar_length_pos c
    omega

theorem psb_plain (f : Nat) (c : Char) (tl acc : List Char) (h1 : ¬ c = '"')
    (h2 : ¬ c = '\\') (h3 : ¬ c.toNat < 32) :
    parseStringBody (f + 1) (c :: tl) acc = parseStringBody f tl (c :: acc) := by
  rw [parseStringBody.eq_def]
  simp only [if_neg h1, if_neg h2, if_neg h3]

set_option maxHeartbeats 4000000 in
theorem parseStringBody_enc : ∀ (cs : List Char) (fuel : Nat) (acc rest : List Char),
    cs.length < fuel →
    parseStringBody fuel (escData cs ++ '"' :: rest) acc =
      .ok (String.mk (acc.reverse ++ cs), rest) := by
  intro cs
  induction cs with
  | nil =>
    intro fuel acc rest hf
    obtain ⟨f, rfl⟩ : ∃ f, fuel = f + 1 := ⟨fuel - 1, by omega⟩
    rw [show escData [] ++ '"' :: rest = '"' :: rest from rfl]
    rw [show parseStringBody (f + 1) ('"' :: rest) acc
      = .ok (String.mk acc.reverse, rest) from rfl]
    simp
  | cons c ct ih =>
    intro fuel acc rest hf
    obtain ⟨f, rfl⟩ : ∃ f, fuel = f + 1 := ⟨fuel - 1, by omega⟩
    have hf' : ct.length < f := by simp only [List.length_cons] at hf; omega
    have hstep : ∀ acc' : List Char, parseStringBody f (escData ct ++ '"' :: rest) acc'
        = .ok (String.mk (acc'.reverse ++ ct), rest) := fun acc' => ih f acc' rest hf'
    rw [show escData (c :: ct) ++ '"' :: rest = escChar c ++ (escData ct ++ '"' :: rest)
      from by rw [show escData (c :: ct) = escChar c ++ escData ct from rfl]; simp]
    rw [escChar]
    split_ifs with h1 h2 h3 h4 h5 h6 h7 h8 h9 h10
    · subst h1
      rw [show (['\\', '"'] : List Char) ++ (escData ct ++ '"' :: rest)
        = '\\' :: '"' :: (escData ct ++ '"' :: rest) from by simp]
      rw [show ∀ tl a : List Char, parseStringBody (f + 1) ('\\' :: '"' :: tl) a
        = parseStringBody f tl ('"' :: a) from fun _ _ => rfl]
      rw [hstep]
      simp
    · subst h2
      rw [show (['\\', '\\'] : List Char) ++ (escData ct ++ '"' :: rest)
        = '\\' :: '\\' :: (escData ct ++ '"' :: rest) from by simp]
      rw [show ∀ tl a : List Char, parseStringBody (f + 1) ('\\' :: '\\' :: tl) a
        = parseStringBody f tl ('\\' :: a) from fun _ _ => rfl]
      rw [hstep]
      simp
    · subst h3
      rw [show (['\\', 'n'] : List Char) ++ (escData ct ++ '"' :: rest)
        = '\\' :: 'n' :: (escData ct ++ '"' :: rest) from by simp]
      rw [show ∀ tl a : List Char, parseStringBody (f + 1) ('\\' :: 'n' :: tl) a
        = parseStringBody f tl ('\n' :: a) from fun _ _ => rfl]
      rw [hstep]
      simp
    · subst h4
      rw [show (['\\', 'r'] : List Char) ++ (escData ct ++ '"' :: rest)
        = '\\' :: 'r' :: (escData ct ++ '"' :: rest) from by simp]
      rw [show ∀ tl a : List Char, parseStringBody (f + 1) ('\\' :: 'r' :: tl) a
        = parseStringBody f tl ('\r' :: a) from fun _ _ => rfl]
      rw [hstep]
      simp
    · subst h5
      rw [show (['\\', 't'] : List Char) ++ (escData ct ++ '"' :: rest)
        = '\\' :: 't' :: (escData ct ++ '"' :: rest) from by simp]
      rw [show ∀ tl a : List Char, parseStringBody (f + 1) ('\\' :: 't' :: tl) a
        = parseStringBody f tl ('\t' :: a) from fun _ _ => rfl]
      rw [hstep]
      simp
    · subst h6
      rw [show (['\\', 'b'] : List Char) ++ (escData ct ++ '"' :: rest)
        = '\\' :: 'b' :: (escData ct ++ '"' :: rest) from by simp]
      rw [show ∀ tl a : List Char, parseStringBody (f + 1) ('\\' :: 'b' :: tl) a
        = parseStringBody f tl (Char.ofNat 8 :: a) from fun _ _ => rfl]
      rw [hstep]
      simp
    · subst h7
      rw [show (['\\', 'f'] : List Char) ++ (escData ct ++ '"' :: rest)
        = '\\' :: 'f' :: (escData ct ++ '"' :: rest) from by simp]
      rw [show ∀ tl a : List Char, parseStringBody (f + 1) ('\\' :: 'f' :: tl) a
        = parseStringBody f tl (Char.ofNat 12 :: a) from fun _ _ => rfl]
      rw [hstep]
      simp
    · rw [psb_uesc f c.toNat (by omega) (by omega) (by omega)]
      rw [Char.ofNat_toNat, hstep]
      simp
    · rw [show ([c] : List Char) ++ (escData ct ++ '"' :: rest)
        = c :: (escData ct ++ '"' :: rest) from by simp]
      rw [psb_plain f c _ acc h1 h2 (by omega)]
      rw [hstep]
      simp
    · rcases char_valid_range c with hv | hv
      · rw [psb_uesc f c.toNat (by omega) (by omega) (by omega)]
        rw [Char.ofNat_toNat, hstep]
        simp
      · rw [psb_uesc f c.toNat (by omega) (by omega) (by omega)]
        rw [Char.ofNat_toNat, hstep]
        simp
    · have hv := char_valid_range c
      rw [psb_surr f c.toNat (by omega) (by omega)]
      rw [Char.ofNat_toNat, hstep]
      simp

theorem alnum_bounds (c : Char) (h : isAlnumC c = true) :
    48 ≤ c.toNat ∧ c.toNat ≤ 57 ∨ 97 ≤ c.toNat ∧ c.toNat ≤ 122 ∨
      65 ≤ c.toNat ∧ c.toNat ≤ 90 := by
  simp only [isAlnumC, isDigitC, Bool.or_eq_true, Bool.and_eq_true, decide_eq_true_eq] at h
  rcases h with (h | h) | h
  · exact Or.inl ⟨h.1, h.2⟩
  · exact Or.inr (Or.inl ⟨h.1, h.2⟩)
  · exact Or.inr (Or.inr ⟨h.1, h.2⟩)

theorem alnum_facts (c : Char) (h : isAlnumC c = true) :
    escChar c = [c] ∧ ¬ c = ':' ∧ ¬ c = ',' ∧ ¬ c = '"' ∧ ¬ c = '}' ∧ ¬ c = ']' ∧
      isPySpace c = false ∧ isJsonWs c = false := by
  have hb := alnum_bounds c h
  have hq : ¬ c = '"' := by rintro rfl; revert hb; decide
  have hbs : ¬ c = '\\' := by rintro rfl; revert hb; decide
  have hn : ¬ c = '\n' := by rintro rfl; revert hb; decide
  have hr : ¬ c = '\r' := by rintro rfl; revert hb; decide
  have ht : ¬ c = '\t' := by rintro rfl; revert hb; decide
  have h8 : ¬ c = Char.ofNat 8 := by rintro rfl; revert hb; decide
  have h12 : ¬ c = Char.ofNat 12 := by rintro rfl; revert hb; decide
  have hsp : ¬ c = ' ' := by rintro rfl; revert hb; decide
  have h11 : ¬ c = Char.ofNat 11 := by rintro rfl; revert hb; decide
  refine ⟨?_, by rintro rfl; revert hb; decide, by rintro rfl; revert hb; decide, hq,
    by rintro rfl; revert hb; decide, by rintro rfl; revert hb; decide,
    by simp [isPySpace, hsp, ht, hn, hr, h11, h12], by simp [isJsonWs, hsp, ht, hn, hr]⟩
  rw [escChar]
  rw [if_neg hq, if_neg hbs, if_neg hn, if_neg hr, if_neg ht, if_neg h8, if_neg h12,
    if_neg (show ¬ c.toNat < 32 from by omega), if_pos (show c.toNat < 127 from by omega)]

theorem escData_alnum (cs : List Char) (h : cs.all isAlnumC = true) : escData cs = cs := by
  induction cs with
  | nil => rfl
  | cons c ct ih =>
    simp only [List.all_cons, Bool.and_eq_true] at h
    rw [show escData (c :: ct) = escChar c ++ escData ct from rfl,
      (alnum_facts c h.1).1, ih h.2]
    rfl


theorem skipWs_cons_of (c : Char) (cs : List Char) (h : isJsonWs c = false) :
    skipWs (c :: cs) = c :: cs := by
  simp [skipWs, List.dropWhile_cons, h]

theorem skipWs_space (cs : List Char) : skipWs (' ' :: cs) = skipWs cs := by
  simp [skipWs, List.dropWhile_cons, show isJsonWs ' ' = true from by decide]

theorem intEnc_not_special (d : Char) (hd : isDigitC d = true ∨ d = '-') :
    isJsonWs d = false ∧ isPySpace d = false ∧ ¬ d = ']' ∧ ¬ d = '}' ∧ ¬ d = '"' ∧
      ¬ d = '{' ∧ ¬ d = '[' ∧ ¬ d = 't' ∧ ¬ d = 'f' ∧ ¬ d = 'n' := by
  rcases hd with hd | hd
  · have h := digit_not_special d hd
    exact ⟨h.1, h.2.1, h.2.2.1, h.2.2.2.1, h.2.2.2.2.1, h.2.2.2.2.2.1,
      h.2.2.2.2.2.2.1, h.2.2.2.2.2.2.2.1, h.2.2.2.2.2.2.2.2.1, h.2.2.2.2.2.2.2.2.2.1⟩
  · subst hd
    exact ⟨by decide, by decide, by decide, by decide, by decide, by decide, by decide,
      by decide, by decide, by decide⟩

theorem encJson_shape (j : Json) : ∃ c cs', encJson j = c :: cs' ∧ isJsonWs c = false ∧
    isPySpace c = false ∧ ¬ c = ']' ∧ ¬ c = '}' := by
  cases j with
  | jnull => exact ⟨'n', _, rfl, by decide, by decide, by decide, by decide⟩
  | jbool b =>
    cases b with
    | true => exact ⟨'t', _, rfl, by decide, by decide, by decide, by decide⟩
    | false => exact ⟨'f', _, rfl, by decide, by decide, by decide, by decide⟩
  | jint n =>
    obtain ⟨d, ds, hd, hcase⟩ := intEnc_head n
    have h := intEnc_not_special d hcase
    exact ⟨d, ds, hd, h.1, h.2.1, h.2.2.1, h.2.2.2.1⟩
  | jstr s =>
    exact ⟨'"', _, rfl, by decide, by decide, by decide, by decide⟩
  | jarr xs =>
    cases xs with
    | anil => exact ⟨'[', _, rfl, by decide, by decide, by decide, by decide⟩
    | acons h t =>
      exact ⟨'[', _, rfl, by decide, by decide, by decide, by decide⟩
  | jobj kvs =>
    cases kvs with
    | onil => exact ⟨'{', _, rfl, by decide, by decide, by decide, by decide⟩
    | ocons k v t =>
      exact ⟨'{', _, rfl, by decide, by decide, by decide, by decide⟩

theorem encJson_length_pos (j : Json) : 0 < (encJson j).length := by
  obtain ⟨c, cs', he, _⟩ := encJson_shape j
  rw [he]
  simp

theorem encJson_obj_shape (kvs : JsonObj) :
    encJson (.jobj kvs) = '{' :: membersEnc kvs ++ ['}'] := by
  cases kvs with
  | onil => rfl
  | ocons k v t => rfl

theorem membersEnc_cons_quote (k : String) (v : Json) (t : JsonObj) :
    membersEnc (.ocons k v t) = '"' :: (escData k.data ++ '"' :: ':' :: ' ' ::
      (encJson v ++ encMembersTail t)) := by
  simp [membersEnc, encString]

theorem encMembersTail_onil : encMembersTail .onil = [] := rfl

theorem encMembersTail_ocons (k : String) (v : Json) (t : JsonObj) :
    encMembersTail (.ocons k v t) = ',' :: ' ' :: membersEnc (.ocons k v t) := rfl

theorem encArrTail_anil : encArrTail .anil = [] := rfl

theorem encArrTail_acons (h : Json) (t : JsonArr) :
    encArrTail (.acons h t) = ',' :: ' ' :: (encJson h ++ encArrTail t) := rfl

theorem membersEnc_length (k : String) (v : Json) (t : JsonObj) :
    (membersEnc (.ocons k v t)).length
      = (escData k.data).length + 4 + (encJson v).length + (encMembersTail t).length := by
  rw [membersEnc_cons_quote]
  simp
  omega

theorem encMembersTail_length (t : JsonObj) :
    encMembersTail t = [] ∨
      ∃ k v t2, t = .ocons k v t2 ∧
        (encMembersTail t).length = (membersEnc (.ocons k v t2)).length + 2 := by
  cases t with
  | onil => exact Or.inl rfl
  | ocons k v t2 =>
    refine Or.inr ⟨k, v, t2, rfl, ?_⟩
    rw [encMembersTail_ocons]
    simp

theorem tailOK_cases (tail : List Char) (h : tailOK tail = true) :
    (∃ r, tail = '}' :: r) ∨ (∃ r, tail = ',' :: '}' :: r) := by
  rw [tailOK.eq_def] at h
  split at h
  · next r => exact Or.inl ⟨r, rfl⟩
  · next r => exact Or.inr ⟨r, rfl⟩
  · exact absurd h (by simp)

theorem restSafe_memTail (t : JsonObj) (tail : List Char) (h : tailOK tail = true) :
    restSafe (encMembersTail t ++ tail) = true := by
  cases t with
  | onil =>
    rcases tailOK_cases tail h with ⟨r, rfl⟩ | ⟨r, rfl⟩ <;> rfl
  | ocons k v t2 => rfl

theorem restSafe_arrTail (t : JsonArr) (rest : List Char) :
    restSafe (encArrTail t ++ ']' :: rest) = true := by
  cases t <;> rfl

theorem objAppend_onil : ∀ (a : JsonObj), objAppend a .onil = a
  | .onil => rfl
  | .ocons k v t => by rw [objAppend, objAppend_onil t]

theorem objAppend_assoc : ∀ (a b c : JsonObj),
    objAppend (objAppend a b) c = objAppend a (objAppend b c)
  | .onil, _, _ => rfl
  | .ocons k v t, b, c => by rw [objAppend, objAppend, objAppend, objAppend_assoc t b c]

theorem objMem_append : ∀ (k : String) (a b : JsonObj),
    objMem k (objAppend a b) = (objMem k a || objMem k b)
  | k, .onil, b => by simp [objAppend, objMem]
  | k, .ocons k0 v0 t, b => by
    simp [objAppend, objMem, objMem_append k t b, Bool.or_assoc]

theorem objInsert_not_mem : ∀ (a : JsonObj) (k : String) (v : Json),
    objMem k a = false → objInsert a k v = objAppend a (.ocons k v .onil)
  | .onil, k, v, _ => rfl
  | .ocons k0 v0 t, k, v, h => by
    simp only [objMem, Bool.or_eq_false_iff] at h
    have hne : ¬ k0 = k := by
      have := h.1
      simpa using this
    simp [objInsert, hne, objAppend, objInsert_not_mem t k v h.2]

theorem objInsertAll_fresh : ∀ (kvs acc : JsonObj), keysFresh kvs = true →
    (∀ k, objMem k kvs = true → objMem k acc = false) →
    objInsertAll acc kvs = objAppend acc kvs
  | .onil, acc, _, _ => by rw [objInsertAll, objAppend_onil]
  | .ocons k v t, acc, hf, hd => by
    rw [keysFresh, Bool.and_eq_true] at hf
    have hkt : objMem k t = false := by
      have := hf.1
      simpa using this
    have hka : objMem k acc = false := hd k (by simp [objMem])
    rw [show objInsertAll acc (.ocons k v t) = objInsertAll (objInsert acc k v) t from rfl]
    rw [objInsertAll_fresh t (objInsert acc k v) hf.2 ?side]
    case side =>
      intro k2 hk2
      rw [objInsert_not_mem acc k v hka, objMem_append]
      have h1 : objMem k2 acc = false := hd k2 (by simp [objMem, hk2])
      have h2 : (k == k2) = false := by
        by_contra hb
        have hb2 : k = k2 := by
          have : (k == k2) = true := by
            cases hbe : (k == k2)
            · exact absurd hbe hb
            · rfl
          simpa using this
        subst hb2
        rw [hk2] at hkt
        exact absurd hkt (by simp)
      simp [h1, objMem, h2]
    rw [objInsert_not_mem acc k v hka, objAppend_assoc]
    rfl

theorem objInsertAll_onil (kvs : JsonObj) (h : keysFresh kvs = true) :
    objInsertAll .onil kvs = kvs := by
  rw [objInsertAll_fresh kvs .onil h (fun k _ => rfl)]
  rfl

theorem listToArr_arrToList : ∀ (xs : JsonArr), listToArr (arrToList xs) = xs
  | .anil => rfl
  | .acons h t => by simp [arrToList, listToArr, listToArr_arrToList t]


theorem string_mk_data (s : String) : String.mk s.data = s := rfl

theorem memResult_step (acc : JsonObj) (k : String) (v : Json) (t : JsonObj)
    (tail : List Char) :
    memResult acc (.ocons k v t) tail = memResult (objInsert acc k v) t tail := by
  rw [memResult.eq_def, memResult.eq_def]
  rw [show objInsertAll acc (.ocons k v t) = objInsertAll (objInsert acc k v) t from by
    rw [objInsertAll]]

theorem pv_num (f : Nat) (c : Char) (tl : List Char) (n : Int) (r : List Char)
    (h1 : ¬ c = '"') (h2 : ¬ c = '{') (h3 : ¬ c = '[') (h4 : ¬ c = 't') (h5 : ¬ c = 'f')
    (h6 : ¬ c = 'n') (h7 : (decide (c = '-') || isDigitC c) = true)
    (hp : parseIntTok (c :: tl) = .ok (n, r)) :
    parseValue (f + 1) (c :: tl) = .ok (.jint n, r) := by
  rw [parseValue.eq_def]
  simp only [if_neg h1, if_neg h2, if_neg h3, if_neg h4, if_neg h5, if_neg h6, h7,
    if_true, hp]

theorem pv_str (f : Nat) (tl : List Char) (s : String) (r : List Char)
    (hp : parseStringBody f tl [] = .ok (s, r)) :
    parseValue (f + 1) ('"' :: tl) = .ok (.jstr s, r) := by
  rw [parseValue.eq_def]
  simp [hp]

theorem pv_obj_quote (f : Nat) (tl tl2 : List Char) (res : Except PErr (Json × List Char))
    (hskip : skipWs tl = '"' :: tl2)
    (hp : parseMembers f ('"' :: tl2) .onil = res) :
    parseValue (f + 1) ('{' :: tl) = res := by
  rw [parseValue.eq_def]
  simp [hskip, hp]

theorem pv_arr (f : Nat) (tl : List Char) (c : Char) (tl2 : List Char)
    (hskip : skipWs tl = c :: tl2) (hc : ¬ c = ']')
    (res : Except PErr (Json × List Char))
    (hp : parseItems f (c :: tl2) [] = res) :
    parseValue (f + 1) ('[' :: tl) = res := by
  rw [parseValue.eq_def]
  simp only [hskip]
  rw [if_neg (show ¬ ('[' : Char) = '"' from by decide)]
  rw [if_neg (show ¬ ('[' : Char) = '{' from by decide)]
  first
    | rw [if_pos (show ('[' : Char) = '[' from rfl)]
    | rw [if_pos trivial]
    | simp only [if_true]
  split
  · next r2 heq =>
    rw [List.cons.injEq] at heq
    exact absurd heq.1 hc
  · next r2 heq =>
    exact hp

set_option maxHeartbeats 4000000 in
theorem roundtrip_aux : ∀ fuel : Nat,
    (∀ (j : Json) (rest : List Char), wfJson j = true → restSafe rest = true →
        (encJson j).length < fuel →
        parseValue fuel (encJson j ++ rest) = .ok (j, rest))
  ∧ (∀ (k : String) (v : Json) (t : JsonObj) (acc : JsonObj) (tail : List Char),
        wfJson v = true → wfObj t = true → tailOK tail = true →
        (membersEnc (.ocons k v t)).length < fuel →
        parseMembers fuel (membersEnc (.ocons k v t) ++ tail) acc
          = memResult acc (.ocons k v t) tail)
  ∧ (∀ (h : Json) (t : JsonArr) (acc : List Json) (rest : List Char),
        wfJson h = true → wfArr t = true →
        (encJson h).length + (encArrTail t).length + 1 < fuel →
        parseItems fuel (encJson h ++ (encArrTail t ++ ']' :: rest)) acc
          = .ok (.jarr (listToArr (acc ++ h :: arrToList t)), rest)) := by
  intro fuel
  induction fuel with
  | zero =>
    refine ⟨?_, ?_, ?_⟩ <;> (intros; omega)
  | succ f ih =>
    obtain ⟨ihV, ihM, ihI⟩ := ih
    refine ⟨?_, ?_, ?_⟩
    · intro j rest hwf hrs hlen
      cases j with
      | jnull =>
        rw [show encJson Json.jnull ++ rest = 'n' :: 'u' :: 'l' :: 'l' :: rest from rfl]
        exact rfl
      | jbool b =>
        cases b with
        | true =>
          rw [show encJson (Json.jbool true) ++ rest = 't' :: 'r' :: 'u' :: 'e' :: rest
            from rfl]
          exact rfl
        | false =>
          rw [show encJson (Json.jbool false) ++ rest
            = 'f' :: 'a' :: 'l' :: 's' :: 'e' :: rest from rfl]
          exact rfl
      | jint n =>
        obtain ⟨d, ds, hie, hcase⟩ := intEnc_head n
        have hns := intEnc_not_special d hcase
        have hcond : (decide (d = '-') || isDigitC d) = true := by
          rcases hcase with hd | hd
          · simp [hd]
          · simp [hd]
        have hpi : parseIntTok (d :: (ds ++ rest)) = .ok (n, rest) := by
          rw [← List.cons_append, ← hie]
          exact parseIntTok_enc n rest hrs
        rw [show encJson (.jint n) = intEnc n from rfl, hie, List.cons_append]
        exact pv_num f d (ds ++ rest) n rest hns.2.2.2.2.1 hns.2.2.2.2.2.1
          hns.2.2.2.2.2.2.1 hns.2.2.2.2.2.2.2.1 hns.2.2.2.2.2.2.2.2.1
          hns.2.2.2.2.2.2.2.2.2 hcond hpi
      | jstr s =>
        have hlen2 : s.data.length < f := by
          rw [show encJson (.jstr s) = '"' :: (escData s.data ++ ['"']) from rfl] at hlen
          have := escData_length s.data
          simp at hlen
          omega
        have hps : parseStringBody f (escData s.data ++ '"' :: rest) []
            = .ok (s, rest) := by
          have h := parseStringBody_enc s.data f [] rest hlen2
          simpa [string_mk_data] using h
        rw [show encJson (.jstr s) ++ rest = '"' :: (escData s.data ++ '"' :: rest) from by
          rw [show encJson (.jstr s) = '"' :: (escData s.data ++ ['"']) from rfl]
          simp]
        exact pv_str f _ s rest hps
      | jarr xs =>
        cases xs with
        | anil =>
          rw [show encJson (.jarr .anil) ++ rest = '[' :: ']' :: rest from rfl]
          exact rfl
        | acons h t =>
          simp only [wfJson, wfArr, Bool.and_eq_true] at hwf
          have hlen2 : (encJson h).length + (encArrTail t).length + 1 < f := by
            rw [show encJson (.jarr (.acons h t))
              = '[' :: (encJson h ++ encArrTail t) ++ [']'] from rfl] at hlen
            simp at hlen
            omega
          have hpi := ihI h t [] rest hwf.1 hwf.2 hlen2
          obtain ⟨c, cs', hec, hws, _, hnr, _⟩ := encJson_shape h
          have hpi2 : parseItems f (c :: (cs' ++ (encArrTail t ++ ']' :: rest))) []
              = .ok (.jarr (listToArr ([] ++ h :: arrToList t)), rest) := by
            rw [← List.cons_append, ← hec]
            exact hpi
          rw [show encJson (.jarr (.acons h t)) ++ rest
            = '[' :: (encJson h ++ (encArrTail t ++ ']' :: rest)) from by
              rw [show encJson (.jarr (.acons h t))
                = '[' :: (encJson h ++ encArrTail t) ++ [']'] from rfl]
              try simp]
          rw [pv_arr f (encJson h ++ (encArrTail t ++ ']' :: rest)) c
            (cs' ++ (encArrTail t ++ ']' :: rest))
            (by rw [hec, List.cons_append]; exact skipWs_cons_of c _ hws) hnr _ hpi2]
          simp [listToArr, listToArr_arrToList]
      | jobj kvs =>
        cases kvs with
        | onil =>
          rw [show encJson (.jobj .onil) ++ rest = '{' :: '}' :: rest from rfl]
          exact rfl
        | ocons k v t =>
          simp only [wfJson, Bool.and_eq_true] at hwf
          have hwv : wfJson v = true ∧ wfObj t = true := by
            have h2 := hwf.2
            simp only [wfObj, Bool.and_eq_true] at h2
            exact h2
          have hlen2 : (membersEnc (.ocons k v t)).length < f := by
            rw [encJson_obj_shape] at hlen
            simp at hlen
            omega
          have hpm := ihM k v t .onil ('}' :: rest) hwv.1 hwv.2 rfl hlen2
          rw [show encJson (.jobj (.ocons k v t)) ++ rest
            = '{' :: (membersEnc (.ocons k v t) ++ '}' :: rest) from by
              rw [encJson_obj_shape]
              try simp]
          rw [show membersEnc (.ocons k v t) ++ '}' :: rest
            = '"' :: ((escData k.data ++ '"' :: ':' :: ' ' ::
              (encJson v ++ encMembersTail t)) ++ '}' :: rest) from by
              rw [membersEnc_cons_quote]
              try simp] at hpm ⊢
          rw [pv_obj_quote f _ _ _ (skipWs_cons_of '"' _ (by decide)) hpm]
          simp only [memResult]
          rw [objInsertAll_onil _ hwf.1]
    · intro k v t acc tail hwv hwt htail hlen
      have hfge : 5 ≤ f := by
        rw [membersEnc_length] at hlen
        have := encJson_length_pos v
        omega
      obtain ⟨g, hg⟩ : ∃ g, f = g + 1 := ⟨f - 1, by omega⟩
      have hkl : k.data.length < f := by
        rw [membersEnc_length] at hlen
        have h1 := escData_length k.data
        have h2 := encJson_length_pos v
        omega
      have hvl : (encJson v).length < f := by
        rw [membersEnc_length] at hlen
        omega
      have hps : parseStringBody f
          (escData k.data ++ '"' :: (':' :: ' ' :: (encJson v ++ (encMembersTail t ++ tail)))) []
          = .ok (k, ':' :: ' ' :: (encJson v ++ (encMembersTail t ++ tail))) := by
        have h := parseStringBody_enc k.data f []
          (':' :: ' ' :: (encJson v ++ (encMembersTail t ++ tail))) hkl
        simpa [string_mk_data] using h
      have hpv := ihV v (encMembersTail t ++ tail) hwv (restSafe_memTail t tail htail) hvl
      rw [show membersEnc (.ocons k v t) ++ tail
        = '"' :: (escData k.data ++ '"' :: (':' :: ' ' ::
          (encJson v ++ (encMembersTail t ++ tail)))) from by
          rw [membersEnc_cons_quote]
          try simp]
      rw [parseMembers.eq_def]
      simp only [hps]
      rw [skipWs_cons_of ':' (' ' :: (encJson v ++ (encMembersTail t ++ tail))) (by decide)]
      simp only []
      rw [skipWs_space]
      obtain ⟨c, cs', hec, hws, _⟩ := encJson_shape v
      rw [hec, List.cons_append, skipWs_cons_of c _ hws, ← List.cons_append, ← hec]
      rw [hpv]
      cases t with
      | onil =>
        simp only [encMembersTail_onil, List.nil_append]
        rcases tailOK_cases tail htail with ⟨r, rfl⟩ | ⟨r, rfl⟩
        · rw [skipWs_cons_of '}' r (by decide)]
          simp only [memResult]
          rw [show objInsertAll acc (.ocons k v .onil) = objInsert acc k v from by
            rw [objInsertAll, objInsertAll]]
        · rw [skipWs_cons_of ',' ('}' :: r) (by decide)]
          simp only []
          rw [skipWs_cons_of '}' r (by decide)]
          rw [hg]
          rw [show parseMembers (g + 1) ('}' :: r) (objInsert acc k v)
            = .error ⟨"Expecting property name enclosed in double quotes", r.length + 1⟩
            from rfl]
          simp [memResult]
      | ocons k2 v2 t2 =>
        rw [encMembersTail_ocons]
        simp only [List.cons_append, List.append_assoc]
        rw [skipWs_cons_of ',' _ (by decide)]
        simp only []
        rw [skipWs_space]
        rw [membersEnc_cons_quote, List.cons_append,
          skipWs_cons_of '"' _ (by decide), ← List.cons_append, ← membersEnc_cons_quote]
        have hwv2 : wfJson v2 = true ∧ wfObj t2 = true := by
          simp only [wfObj, Bool.and_eq_true] at hwt
          exact hwt
        have hlen3 : (membersEnc (.ocons k2 v2 t2)).length < f := by
          rw [membersEnc_length, encMembersTail_ocons] at hlen
          simp only [List.length_cons] at hlen
          omega
        rw [ihM k2 v2 t2 (objInsert acc k v) tail hwv2.1 hwv2.2 htail hlen3]
        exact (memResult_step acc k v (.ocons k2 v2 t2) tail).symm
    · intro h t acc rest hwh hwt hlen
      have hvl : (encJson h).length < f := by omega
      have hpv := ihV h (encArrTail t ++ ']' :: rest) hwh (restSafe_arrTail t rest) hvl
      rw [parseItems.eq_def]
      simp only []
      rw [hpv]
      cases t with
      | anil =>
        simp only [encArrTail_anil, List.nil_append]
        rw [skipWs_cons_of ']' rest (by decide)]
        simp [arrToList]
      | acons h2 t2 =>
        rw [encArrTail_acons]
        simp only [List.cons_append, List.append_assoc]
        rw [skipWs_cons_of ',' _ (by decide)]
        simp only []
        rw [skipWs_space]
        obtain ⟨c, cs', hec, hws, _⟩ := encJson_shape h2
        rw [hec, List.cons_append, skipWs_cons_of c _ hws, ← List.cons_append, ← hec]
        have hw2 : wfJson h2 = true ∧ wfArr t2 = true := by
          simp only [wfArr, Bool.and_eq_true] at hwt
          exact hwt
        have hlen2 : (encJson h2).length + (encArrTail t2).length + 1 < f := by
          rw [encArrTail_acons] at hlen
          simp only [List.length_cons, List.length_append] at hlen
          omega
        rw [ihI h2 t2 (acc ++ [h]) rest hw2.1 hw2.2 hlen2]
        simp [arrToList]


theorem pyStrip_brace (mid : List Char) :
    pyStrip ('{' :: (mid ++ ['}'])) = '{' :: (mid ++ ['}']) := by
  rw [pyStrip]
  have h1 : List.dropWhile isPySpace ('{' :: (mid ++ ['}'])) = '{' :: (mid ++ ['}']) := by
    simp [List.dropWhile_cons, show isPySpace '{' = false from by decide]
  rw [h1]
  have h2 : ('{' :: (mid ++ ['}'])).reverse = '}' :: (mid.reverse ++ ['{']) := by
    simp
  rw [h2]
  have h3 : List.dropWhile isPySpace ('}' :: (mid.reverse ++ ['{']))
      = '}' :: (mid.reverse ++ ['{']) := by
    simp [List.dropWhile_cons, show isPySpace '}' = false from by decide]
  rw [h3, ← h2, List.reverse_reverse]

theorem extractBraces_brace (mid : List Char) :
    extractBraces ('{' :: (mid ++ ['}'])) = '{' :: (mid ++ ['}']) := by
  rw [extractBraces]
  have h1 : List.findIdx? (fun c => c = '{') ('{' :: (mid ++ ['}'])) = some 0 := by
    rw [List.findIdx?_cons]
    simp
  have h2 : ('{' :: (mid ++ ['}'])).reverse = '}' :: (mid.reverse ++ ['{']) := by
    simp
  have h3 : List.findIdx? (fun c => c = '}') (('{' :: (mid ++ ['}'])).reverse) = some 0 := by
    rw [h2, List.findIdx?_cons]
    simp
  rw [h1, h3]
  have hlen : ('{' :: (mid ++ ['}'])).length = mid.length + 2 := by simp
  simp only [hlen]
  rw [if_pos (by omega)]
  rw [show mid.length + 2 - 1 - 0 - 0 + 1 = mid.length + 2 from by omega]
  rw [List.drop_zero, ← hlen, List.take_length]

theorem json_loads_enc (j : Json) (hwf : wfJson j = true) :
    json_loads_chars (encJson j) = .ok j := by
  obtain ⟨c, cs', hec, hws, _⟩ := encJson_shape j
  have h := (roundtrip_aux (2 * (encJson j).length + 2)).1 j [] hwf rfl (by omega)
  rw [List.append_nil] at h
  rw [json_loads_chars]
  rw [show skipWs (encJson j) = encJson j from by
    rw [hec]; exact skipWs_cons_of c cs' hws]
  rw [h]
  rfl

theorem parse_json_response_roundtrip (provider : String) (kvs : JsonObj)
    (hwf : wfJson (.jobj kvs) = true) :
    parse_json_response provider (json_dumps (.jobj kvs)) = .ok (.jobj kvs) := by
  simp only [parse_json_response]
  rw [show (json_dumps (.jobj kvs)).data = encJson (.jobj kvs) from rfl]
  rw [show pyStrip (encJson (.jobj kvs)) = encJson (.jobj kvs) from by
    rw [encJson_obj_shape]
    rw [show '{' :: membersEnc kvs ++ ['}'] = '{' :: (membersEnc kvs ++ ['}']) from by simp]
    exact pyStrip_brace (membersEnc kvs)]
  rw [show extractBraces (encJson (.jobj kvs)) = encJson (.jobj kvs) from by
    rw [encJson_obj_shape]
    rw [show '{' :: membersEnc kvs ++ ['}'] = '{' :: (membersEnc kvs ++ ['}']) from by simp]
    exact extractBraces_brace (membersEnc kvs)]
  rw [json_loads_enc _ hwf]


theorem json_loads_corrupt (k : String) (v : Json) (t : JsonObj)
    (hwv : wfJson v = true) (hwt : wfObj t = true) :
    json_loads_chars ('{' :: (membersEnc (.ocons k v t) ++ [',', '}']))
      = .error ⟨"Expecting property name enclosed in double quotes", 1⟩ := by
  have hsplit : membersEnc (.ocons k v t) ++ [',', '}']
      = '"' :: ((escData k.data ++ '"' :: ':' :: ' ' ::
        (encJson v ++ encMembersTail t)) ++ [',', '}']) := by
    rw [membersEnc_cons_quote]
    try simp
  have hlen : ('{' :: (membersEnc (.ocons k v t) ++ [',', '}'])).length
      = (membersEnc (.ocons k v t)).length + 3 := by simp
  have hpm := (roundtrip_aux
      (2 * ('{' :: (membersEnc (.ocons k v t) ++ [',', '}'])).length + 1)).2.1
    k v t .onil [',', '}'] hwv hwt rfl (by rw [hlen]; omega)
  have hpm2 : parseMembers
      (2 * ('{' :: (membersEnc (.ocons k v t) ++ [',', '}'])).length + 1)
      ('"' :: ((escData k.data ++ '"' :: ':' :: ' ' ::
        (encJson v ++ encMembersTail t)) ++ [',', '}'])) .onil
      = .error ⟨"Expecting property name enclosed in double quotes", 1⟩ := by
    rw [← hsplit, hpm]
    rfl
  have hv := pv_obj_quote
    (2 * ('{' :: (membersEnc (.ocons k v t) ++ [',', '}'])).length + 1)
    (membersEnc (.ocons k v t) ++ [',', '}'])
    ((escData k.data ++ '"' :: ':' :: ' ' :: (encJson v ++ encMembersTail t)) ++ [',', '}'])
    (.error ⟨"Expecting property name enclosed in double quotes", 1⟩)
    (by rw [hsplit]; exact skipWs_cons_of '"' _ (by decide)) hpm2
  rw [json_loads_chars]
  rw [skipWs_cons_of '{' _ (by decide)]
  rw [show 2 * ('{' :: (membersEnc (.ocons k v t) ++ [',', '}'])).length + 2
    = (2 * ('{' :: (membersEnc (.ocons k v t) ++ [',', '}'])).length + 1) + 1 from rfl]
  rw [hv]

theorem tryColonStr_none_head (cs : List Char)
    (h : ∀ c, (cs.dropWhile isPySpace).head? = some c → ¬ c = '"') :
    tryColonStr cs = none := by
  rw [tryColonStr.eq_def]
  split
  · next content heq => exact absurd rfl (h '"' (by rw [heq]; rfl))
  · rfl

theorem sccAux_id (repl : List Char → List Char) : ∀ (fuel : Nat) (prev : Option Char)
    (cs : List Char), noColonQuote prev cs = true → sccAux repl fuel prev cs = cs := by
  intro fuel
  induction fuel with
  | zero => intro prev cs h; rfl
  | succ f ih =>
    intro prev cs h
    cases cs with
    | nil => rfl
    | cons c rest =>
      rw [noColonQuote, Bool.and_eq_true] at h
      rw [sccAux.eq_def]
      by_cases hp : prev = some ':'
      · have h1 : (tryColonStr (c :: rest)).isNone = true := by
          have h2 := h.1
          rw [if_pos hp] at h2
          exact h2
        have h2 : tryColonStr (c :: rest) = none := by
          cases h3 : tryColonStr (c :: rest)
          · rfl
          · rw [h3] at h1
            exact absurd h1 (by simp)
        simp only [if_pos hp, h2]
        rw [ih (some c) rest h.2]
      · simp only [if_neg hp]
        rw [ih (some c) rest h.2]

theorem noColonQuote_append (xs ys : List Char) (hxs : ∀ c ∈ xs, ¬ c = ':')
    (hys : ∀ p, ¬ p = some ':' → noColonQuote p ys = true) :
    ∀ p, ¬ p = some ':' → noColonQuote p (xs ++ ys) = true := by
  induction xs with
  | nil => intro p hp; exact hys p hp
  | cons x xt ih =>
    intro p hp
    rw [List.cons_append, noColonQuote, Bool.and_eq_true]
    refine ⟨by rw [if_neg hp], ?_⟩
    refine ih (fun c hc => hxs c (by simp [hc])) (some x) ?_
    intro hx
    rw [Option.some.injEq] at hx
    exact hxs x (by simp) hx

theorem noColonQuote_colon_int (n : Int) (rest : List Char)
    (hrest : ∀ p, ¬ p = some ':' → noColonQuote p rest = true) :
    ∀ p, ¬ p = some ':' → noColonQuote p (':' :: ' ' :: (intEnc n ++ rest)) = true := by
  intro p hp
  obtain ⟨d, ds, hie, hcase⟩ := intEnc_head n
  rw [noColonQuote, Bool.and_eq_true]
  refine ⟨by rw [if_neg hp], ?_⟩
  rw [noColonQuote, Bool.and_eq_true]
  constructor
  · rw [if_pos rfl]
    have htc : tryColonStr (' ' :: (intEnc n ++ rest)) = none := by
      refine tryColonStr_none_head _ ?_
      intro c hc
      rw [show (' ' :: (intEnc n ++ rest)).dropWhile isPySpace
        = (intEnc n ++ rest).dropWhile isPySpace from by
          simp [List.dropWhile_cons, show isPySpace ' ' = true from by decide]] at hc
      rw [hie, List.cons_append, List.dropWhile_cons] at hc
      have hdns : isPySpace d = false := by
        rcases hcase with hd | hd
        · exact (digit_not_special d hd).2.1
        · rw [hd]; decide
      rw [hdns] at hc
      simp only [Bool.false_eq_true, if_false, List.head?_cons, Option.some.injEq] at hc
      subst hc
      rcases hcase with hd | hd
      · exact (digit_not_special d hd).2.2.2.2.1
      · rw [hd]; decide
    rw [htc]
    rfl
  · refine noColonQuote_append (intEnc n) rest ?_ hrest (some ' ') (by simp)
    intro c hc
    rcases intEnc_all n c hc with hd | hd
    · exact (digit_not_special c hd).2.2.2.2.2.2.2.2.2.2.1
    · rw [hd]; decide

theorem flat_noColonQuote : ∀ (kvs : JsonObj), flatIntObj kvs = true →
    ∀ (rest : List Char), (∀ p, ¬ p = some ':' → noColonQuote p rest = true) →
    ∀ p, ¬ p = some ':' → noColonQuote p (membersEnc kvs ++ rest) = true
  | .onil, _, rest, hrest, p, hp => by
    rw [membersEnc, List.nil_append]
    exact hrest p hp
  | .ocons k v t, hflat, rest, hrest, p, hp => by
    rw [flatIntObj, Bool.and_eq_true, Bool.and_eq_true] at hflat
    obtain ⟨⟨hk, hv⟩, ht⟩ := hflat
    obtain ⟨n, rfl⟩ : ∃ n, v = .jint n := by
      revert hv
      cases v <;> intro hv
      case jint m => exact ⟨m, rfl⟩
      all_goals simp [isIntVal] at hv
    have hstep : membersEnc (.ocons k (.jint n) t) ++ rest
        = ('"' :: k.data ++ ['"']) ++ (':' :: ' ' :: (intEnc n ++ (encMembersTail t ++ rest))) := by
      rw [membersEnc_cons_quote, escData_alnum k.data hk,
        show encJson (.jint n) = intEnc n from rfl]
      simp
    rw [hstep]
    refine noColonQuote_append _ _ ?_ ?_ p hp
    · intro c hc
      simp at hc
      rcases hc with hc | hc | hc
      · subst hc; decide
      · exact (alnum_facts c (List.all_eq_true.mp hk c hc)).2.1
      · subst hc; decide
    · intro q hq
      refine noColonQuote_colon_int n (encMembersTail t ++ rest) ?_ q hq
      intro q2 hq2
      cases t with
      | onil =>
        rw [encMembersTail_onil, List.nil_append]
        exact hrest q2 hq2
      | ocons k2 v2 t2 =>
        rw [encMembersTail_ocons]
        rw [show (',' :: ' ' :: membersEnc (.ocons k2 v2 t2)) ++ rest
          = [',', ' '] ++ (membersEnc (.ocons k2 v2 t2) ++ rest) from by simp]
        refine noColonQuote_append _ _ ?_ ?_ q2 hq2
        · intro c hc
          simp only [List.mem_cons, List.mem_singleton] at hc
          rcases hc with hc | hc | hc
          · subst hc; decide
          · subst hc; decide
          · simp at hc
        · intro q3 hq3
          exact flat_noColonQuote (.ocons k2 v2 t2) ht rest hrest q3 hq3

theorem t2_corrupt_id (kvs : JsonObj) (hflat : flatIntObj kvs = true) :
    t2 ('{' :: (membersEnc kvs ++ [',', '}'])) = '{' :: (membersEnc kvs ++ [',', '}']) := by
  rw [t2]
  refine sccAux_id replNewline _ none _ ?_
  rw [show ('{' : Char) :: (membersEnc kvs ++ [',', '}'])
    = ['{'] ++ (membersEnc kvs ++ [',', '}']) from by simp]
  refine noColonQuote_append _ _ (by intro c hc; simp at hc; subst hc; decide) ?_ none (by simp)
  intro p hp
  refine flat_noColonQuote kvs hflat [',', '}'] ?_ p hp
  intro q hq
  rw [noColonQuote, Bool.and_eq_true]
  refine ⟨by rw [if_neg hq], ?_⟩
  rw [noColonQuote, Bool.and_eq_true]
  exact ⟨by rw [if_neg (by simp)], rfl⟩


theorem isIntVal_jint (v : Json) (h : isIntVal v = true) : ∃ n, v = .jint n := by
  revert h
  cases v <;> intro h
  case jint m => exact ⟨m, rfl⟩
  all_goals simp [isIntVal] at h

theorem t3Aux_nil : ∀ fuel : Nat, t3Aux fuel [] = []
  | 0 => rfl
  | _ + 1 => rfl

theorem t3Aux_comma_brace : ∀ fuel : Nat, 1 ≤ fuel → t3Aux fuel [',', '}'] = ['}'] := by
  intro fuel hf
  obtain ⟨f, rfl⟩ : ∃ f, fuel = f + 1 := ⟨fuel - 1, by omega⟩
  rw [t3Aux.eq_def]
  simp [List.dropWhile_cons, show isPySpace '}' = false from by decide, t3Aux_nil]

theorem t3Aux_plain (fuel : Nat) (c : Char) (rest : List Char) (hc : ¬ c = ',') :
    t3Aux (fuel + 1) (c :: rest) = c :: t3Aux fuel rest := by
  rw [t3Aux.eq_def]
  split
  · next heq => exact absurd heq (by omega)
  · next f2 heq =>
    obtain rfl : f2 = fuel := by omega
    split
    · next heq2 => simp at heq2
    · next rest2 heq2 =>
      rw [List.cons.injEq] at heq2
      exact absurd heq2.1 hc
    · next c2 rest2 hne heq2 =>
      rw [List.cons.injEq] at heq2
      obtain ⟨h1, h2⟩ := heq2
      subst h1
      subst h2
      rfl

theorem t3Aux_comma_keep (fuel : Nat) (rest : List Char) (c : Char) (r2 : List Char)
    (hdw : rest.dropWhile isPySpace = c :: r2) (hc1 : ¬ c = '}') (hc2 : ¬ c = ']') :
    t3Aux (fuel + 1) (',' :: rest) = ',' :: t3Aux fuel rest := by
  have hb : (decide (c = '}') || decide (c = ']')) = false := by
    simp [hc1, hc2]
  rw [t3Aux.eq_def]
  simp only [hdw, hb, Bool.false_eq_true, if_false]

theorem t3Aux_no_comma : ∀ (xs : List Char), (∀ c ∈ xs, ¬ c = ',') →
    ∀ (ys : List Char) (fuel : Nat), xs.length ≤ fuel →
    t3Aux fuel (xs ++ ys) = xs ++ t3Aux (fuel - xs.length) ys
  | [], _, ys, fuel, _ => by simp
  | x :: xt, hxs, ys, fuel, hf => by
    obtain ⟨f, rfl⟩ : ∃ f, fuel = f + 1 :=
      ⟨fuel - 1, by simp only [List.length_cons] at hf; omega⟩
    rw [List.cons_append, t3Aux_plain f x (xt ++ ys) (hxs x (by simp))]
    rw [t3Aux_no_comma xt (fun c hc => hxs c (by simp [hc])) ys f
      (by simp only [List.length_cons] at hf; omega)]
    simp only [List.length_cons, List.cons_append]
    rw [show f + 1 - (xt.length + 1) = f - xt.length from by omega]

theorem t3_both : ∀ (kvs : JsonObj), flatIntObj kvs = true →
    (∀ fuel : Nat, (membersEnc kvs).length + 2 ≤ fuel →
      t3Aux fuel (membersEnc kvs ++ [',', '}']) = membersEnc kvs ++ ['}'])
  ∧ (∀ fuel : Nat, (encMembersTail kvs).length + 2 ≤ fuel →
      t3Aux fuel (encMembersTail kvs ++ [',', '}']) = encMembersTail kvs ++ ['}'])
  | .onil, _ => by
    constructor
    · intro fuel hf
      rw [membersEnc] at hf ⊢
      rw [List.nil_append, List.nil_append]
      exact t3Aux_comma_brace fuel (by simp at hf; omega)
    · intro fuel hf
      rw [encMembersTail_onil] at hf ⊢
      rw [List.nil_append, List.nil_append]
      exact t3Aux_comma_brace fuel (by simp at hf; omega)
  | .ocons k v t, hflat => by
    rw [flatIntObj, Bool.and_eq_true, Bool.and_eq_true] at hflat
    obtain ⟨⟨hk, hv⟩, ht⟩ := hflat
    obtain ⟨n, rfl⟩ := isIntVal_jint v hv
    have ihB := (t3_both t ht).2
    have hP : ∀ c ∈ ('"' :: k.data ++ ['"'] ++ ':' :: ' ' :: intEnc n : List Char),
        ¬ c = ',' := by
      intro c hc
      rw [show ('"' :: k.data ++ ['"'] ++ ':' :: ' ' :: intEnc n : List Char)
        = ('"' :: k.data) ++ (['"'] ++ ([':'] ++ ([' '] ++ intEnc n))) from by simp] at hc
      rw [List.mem_append] at hc
      rcases hc with hc | hc
      · rw [List.mem_cons] at hc
        rcases hc with hc | hc
        · subst hc; decide
        · exact (alnum_facts c (List.all_eq_true.mp hk c hc)).2.2.1
      · rw [List.mem_append] at hc
        rcases hc with hc | hc
        · rw [List.mem_singleton] at hc
          subst hc
          decide
        · rw [List.mem_append] at hc
          rcases hc with hc | hc
          · rw [List.mem_singleton] at hc
            subst hc
            decide
          · rw [List.mem_append] at hc
            rcases hc with hc | hc
            · rw [List.mem_singleton] at hc
              subst hc
              decide
            · rcases intEnc_all n c hc with hd | hd
              · exact (digit_not_special c hd).2.2.2.2.2.2.2.2.2.2.2.1
              · subst hd
                decide
    have hsplit : ∀ z : List Char, membersEnc (.ocons k (.jint n) t) ++ z
        = ('"' :: k.data ++ ['"'] ++ ':' :: ' ' :: intEnc n)
          ++ (encMembersTail t ++ z) := by
      intro z
      rw [membersEnc_cons_quote, escData_alnum k.data hk,
        show encJson (.jint n) = intEnc n from rfl]
      simp
    have hlenP : ('"' :: k.data ++ ['"'] ++ ':' :: ' ' :: intEnc n : List Char).length
        = k.data.length + 4 + (intEnc n).length := by
      simp
      omega
    have hlenM : (membersEnc (.ocons k (.jint n) t)).length
        = k.data.length + 4 + (intEnc n).length + (encMembersTail t).length := by
      rw [membersEnc_length, escData_alnum k.data hk,
        show encJson (.jint n) = intEnc n from rfl]
    have hA : ∀ fuel : Nat, (membersEnc (.ocons k (.jint n) t)).length + 2 ≤ fuel →
        t3Aux fuel (membersEnc (.ocons k (.jint n) t) ++ [',', '}'])
          = membersEnc (.ocons k (.jint n) t) ++ ['}'] := by
      intro fuel hf
      rw [hsplit [',', '}'], hsplit ['}']]
      rw [t3Aux_no_comma _ hP _ fuel (by rw [hlenM] at hf; rw [hlenP]; omega)]
      rw [ihB (fuel - ('"' :: k.data ++ ['"'] ++ ':' :: ' ' :: intEnc n : List Char).length)
        (by rw [hlenM] at hf; rw [hlenP]; omega)]
    refine ⟨hA, ?_⟩
    intro fuel hf
    rw [encMembersTail_ocons] at hf ⊢
    obtain ⟨g, rfl⟩ : ∃ g, fuel = g + 1 + 1 := ⟨fuel - 2, by simp at hf; omega⟩
    have hdw : (' ' :: (membersEnc (.ocons k (.jint n) t) ++ [',', '}'])).dropWhile isPySpace
        = '"' :: ((escData k.data ++ '"' :: ':' :: ' ' ::
          (encJson (.jint n) ++ encMembersTail t)) ++ [',', '}']) := by
      rw [show (' ' :: (membersEnc (.ocons k (.jint n) t) ++ [',', '}'])).dropWhile isPySpace
        = (membersEnc (.ocons k (.jint n) t) ++ [',', '}']).dropWhile isPySpace from by
          simp [List.dropWhile_cons, show isPySpace ' ' = true from by decide]]
      rw [membersEnc_cons_quote, List.cons_append]
      simp [List.dropWhile_cons, show isPySpace '"' = false from by decide]
    rw [show (',' :: ' ' :: membersEnc (.ocons k (.jint n) t)) ++ [',', '}']
      = ',' :: (' ' :: (membersEnc (.ocons k (.jint n) t) ++ [',', '}'])) from by simp]
    rw [t3Aux_comma_keep (g + 1) _ '"' _ hdw (by decide) (by decide)]
    rw [t3Aux_plain g ' ' _ (by decide)]
    rw [hA g (by simp only [List.length_cons] at hf; omega)]
    simp


theorem t3_corrupt (kvs : JsonObj) (hflat : flatIntObj kvs = true) :
    t3 ('{' :: (membersEnc kvs ++ [',', '}'])) = '{' :: (membersEnc kvs ++ ['}']) := by
  rw [t3]
  rw [t3Aux_plain _ '{' _ (by decide)]
  rw [(t3_both kvs hflat).1 _ (by simp)]

theorem corrupt_flat_recovers (provider : String) (kvs : JsonObj)
    (hwf : wfJson (.jobj kvs) = true) (hflat : flatIntObj kvs = true) :
    parse_json_response provider (corruptTrailingComma (json_dumps (.jobj kvs)))
      = .ok (.jobj kvs) := by
  cases kvs with
  | onil => rfl
  | ocons k v t =>
    have hwf0 := hwf
    simp only [wfJson, Bool.and_eq_true] at hwf
    have hwv : wfJson v = true ∧ wfObj t = true := by
      have h2 := hwf.2
      simp only [wfObj, Bool.and_eq_true] at h2
      exact h2
    have hdata : (corruptTrailingComma (json_dumps (.jobj (.ocons k v t)))).data
        = '{' :: (membersEnc (.ocons k v t) ++ [',', '}']) := by
      rw [corruptTrailingComma]
      rw [show (String.mk ((json_dumps (.jobj (.ocons k v t))).data.dropLast
        ++ [',', '}'])).data
        = (json_dumps (.jobj (.ocons k v t))).data.dropLast ++ [',', '}'] from rfl]
      rw [show (json_dumps (.jobj (.ocons k v t))).data
        = encJson (.jobj (.ocons k v t)) from rfl]
      rw [encJson_obj_shape]
      rw [show ('{' :: membersEnc (.ocons k v t) ++ ['}']).dropLast
        = '{' :: membersEnc (.ocons k v t) from by
          rw [show '{' :: membersEnc (.ocons k v t) ++ ['}']
            = ('{' :: membersEnc (.ocons k v t)) ++ ['}'] from by simp]
          rw [List.dropLast_concat]]
      simp
    have hb : membersEnc (.ocons k v t) ++ [',', '}']
        = (membersEnc (.ocons k v t) ++ [',']) ++ ['}'] := by simp
    have hstrip : pyStrip ('{' :: (membersEnc (.ocons k v t) ++ [',', '}']))
        = '{' :: (membersEnc (.ocons k v t) ++ [',', '}']) := by
      rw [hb]
      exact pyStrip_brace _
    have hext : extractBraces ('{' :: (membersEnc (.ocons k v t) ++ [',', '}']))
        = '{' :: (membersEnc (.ocons k v t) ++ [',', '}']) := by
      rw [hb]
      exact extractBraces_brace _
    have hok : json_loads_chars ('{' :: (membersEnc (.ocons k v t) ++ ['}']))
        = .ok (.jobj (.ocons k v t)) := by
      rw [show '{' :: (membersEnc (.ocons k v t) ++ ['}'])
        = encJson (.jobj (.ocons k v t)) from by rw [encJson_obj_shape]; simp]
      exact json_loads_enc _ hwf0
    simp only [parse_json_response, hdata, hstrip, hext,
      json_loads_corrupt k v t hwv.1 hwv.2, t2_corrupt_id _ hflat, t3_corrupt _ hflat, hok]

set_option maxRecDepth 100000 in
/-- C7: the round-trip half of the claim holds on this input, but the
trailing-comma half fails as stated: on an object whose string value ends in
two spaces the corrupted text still decodes, yet to a different mapping, the
value having lost its trailing spaces to the newline-escape transform before
the comma repair runs. -/
theorem claim_C7_counterexample :
    wfJson c7_val = true
  ∧ parse_json_response "OpenAI" (json_dumps c7_val) = .ok c7_val
  ∧ parse_json_response "OpenAI" (corruptTrailingComma (json_dumps c7_val)) = .ok c7_mangled
  ∧ c7_mangled ≠ c7_val :=
  ⟨by decide, by decide, by decide, by decide⟩

/-- C7 (amended): serialising any well-formed JSON object with the modelled
json.dumps and decoding it through parse_json_response returns exactly the
original object, for every provider; and for flat objects with alphanumeric
keys and integer values a single trailing comma inserted before the closing
brace is repaired exactly, the decode returning the original mapping. -/
theorem claim_C7 :
    (∀ (provider : String) (kvs : JsonObj), wfJson (.jobj kvs) = true →
        parse_json_response provider (json_dumps (.jobj kvs)) = .ok (.jobj kvs))
  ∧ (∀ (provider : String) (kvs : JsonObj), wfJson (.jobj kvs) = true →
        flatIntObj kvs = true →
        parse_json_response provider (corruptTrailingComma (json_dumps (.jobj kvs)))
          = .ok (.jobj kvs)) :=
  ⟨parse_json_response_roundtrip, corrupt_flat_recovers⟩

/-- C7 witness: both halves of the amended claim applied at a concrete
two-field integer object. -/
theorem claim_C7_witness :
    parse_json_response "OpenAI" (json_dumps (.jobj (.ocons "k" (.jint 7)
        (.ocons "m" (.jint (-2)) .onil))))
      = .ok (.jobj (.ocons "k" (.jint 7) (.ocons "m" (.jint (-2)) .onil)))
  ∧ parse_json_response "OpenAI" (corruptTrailingComma (json_dumps (.jobj (.ocons "k"
        (.jint 7) (.ocons "m" (.jint (-2)) .onil)))))
      = .ok (.jobj (.ocons "k" (.jint 7) (.ocons "m" (.jint (-2)) .onil))) :=
  ⟨claim_C7.1 "OpenAI" _ (by decide), claim_C7.2 "OpenAI" _ (by decide) (by decide)⟩


end ReportAnalysis
